import Mathlib

set_option maxHeartbeats 1000000

namespace Serdere

/-- Byte value, 0..255 (models `u8` in `lookback_data` and key byte comparisons). -/
abbrev Byte := Nat

/-- A character, represented by its unicode code point. -/
abbrev Ch := Nat

/-- UTF-8 encoding of a character, mirroring `char::encode_utf8`. -/
def utf8Encode (n : Ch) : List Byte :=
  if n < 0x80 then [n]
  else if n < 0x800 then [0xC0 ||| (n >>> 6), 0x80 ||| (n &&& 0x3F)]
  else if n < 0x10000 then
    [0xE0 ||| (n >>> 12), 0x80 ||| ((n >>> 6) &&& 0x3F), 0x80 ||| (n &&& 0x3F)]
  else
    [0xF0 ||| (n >>> 18), 0x80 ||| ((n >>> 12) &&& 0x3F),
      0x80 ||| ((n >>> 6) &&& 0x3F), 0x80 ||| (n &&& 0x3F)]

/-- UTF-8 bytes of a character sequence (models `str::as_bytes`). -/
def strBytes (s : List Ch) : List Byte :=
  (s.map utf8Encode).flatten

/-- The code points of a string literal. -/
def str (s : String) : List Ch :=
  s.toList.map Char.toNat

/-- Decodes the first UTF-8 encoded character of a byte list, returning the character
and the number of bytes it occupied. Mirrors reading the first char of a `str` slice
(the source only decodes data it encoded itself). -/
def utf8DecodeFirst : List Byte → Option (Ch × Nat)
  | [] => none
  | b0 :: rest =>
    if b0 < 0x80 then some (b0, 1)
    else if b0 < 0xE0 then
      match rest with
      | b1 :: _ => some ((((b0 &&& 0x1F) <<< 6) ||| (b1 &&& 0x3F)), 2)
      | _ => none
    else if b0 < 0xF0 then
      match rest with
      | b1 :: b2 :: _ =>
        some ((((b0 &&& 0xF) <<< 12) ||| ((b1 &&& 0x3F) <<< 6) ||| (b2 &&& 0x3F)), 3)
      | _ => none
    else
      match rest with
      | b1 :: b2 :: b3 :: _ =>
        some ((((b0 &&& 0x7) <<< 18) ||| ((b1 &&& 0x3F) <<< 12) |||
          ((b2 &&& 0x3F) <<< 6) ||| (b3 &&& 0x3F)), 4)
      | _ => none

/-- Character constants (code points) used throughout the reader. -/
def chQuote : Ch := 34

def chBackslash : Ch := 92

def chLBrace : Ch := 123

def chRBrace : Ch := 125

def chLBrack : Ch := 91

def chRBrack : Ch := 93

/-- A position in the input stream: the remaining suffix of the input, mirroring
`StrPosition` which is a reference to the suffix of the source string. -/
abbrev Pos := List Ch

/-- The message of a `DeserializeError` (`DeserializeErrorMessage` in the source).
`Custom` carries only a tag string for the wrapped error. -/
inductive ErrMsg where
  | custom (tag : String)
  | unexpectedEof
  | unexpectedChar
  | invalidLiteral
  | expectedString
  | expectedNumber
  | expectedObject
  | expectedArray
  | expectedBool
  | expectedNull
  | numberOverflow
  | unrecognizedEscape
  | missingKey (key : List Ch)
  | extraKey (key : List Ch)
  | keyTooLong
  | missingItems
  | excessItems
  deriving DecidableEq, Repr

/-- A recoverable JSON deserialization error: position plus message (`DeserializeError`). -/
structure DErr where
  pos : Pos
  msg : ErrMsg
  deriving DecidableEq, Repr

/-- Result of running a reader-level computation: a value with the remaining input,
a recoverable error, a fatal assertion failure (a Rust panic), or fuel exhaustion. -/
inductive RRes (a : Type) where
  | ok (val : a) (rest : List Ch)
  | err (e : DErr)
  | fatal (msg : String)
  | diverge
  deriving Repr, DecidableEq

/-- Reader-level computation: consumes characters from the remaining input. -/
def R (a : Type) : Type := List Ch → RRes a

instance : Monad R where
  pure x := fun s => .ok x s
  bind x f := fun s =>
    match x s with
    | .ok v rest => f v rest
    | .err e => .err e
    | .fatal m => .fatal m
    | .diverge => .diverge

/-- Reads the next character, advancing the stream (`TextReader::next`). -/
def rNext : R (Option Ch) := fun s =>
  match s with
  | [] => .ok none []
  | c :: rest => .ok (some c) rest

/-- Peeks at the next character without advancing (`TextReader::peek`). -/
def rPeek : R (Option Ch) := fun s => .ok s.head? s

/-- The current position (`TextReader::position`). -/
def rPos : R Pos := fun s => .ok s s

/-- Raises a recoverable deserialization error. -/
def rErr {a : Type} (p : Pos) (m : ErrMsg) : R a := fun _ => .err ⟨p, m⟩

/-- Raises a fatal (panic) outcome. -/
def rFatal {a : Type} (m : String) : R a := fun _ => .fatal m

/-- Signals fuel exhaustion. -/
def rDiverge {a : Type} : R a := fun _ => .diverge

/-- Checks whether the given string is a prefix of the remaining stream, advancing past
it if so (`TextReader::read_exact`); on mismatch the stream is left mid-way. -/
def readExact : List Ch → R Bool
  | [] => pure true
  | c :: cs => do
    match ← rNext with
    | some c2 => if c2 = c then readExact cs else pure false
    | none => pure false

/-- Whether a character is JSON whitespace (space, newline, carriage return, tab). -/
def isWs (c : Ch) : Bool :=
  c = 32 ∨ c = 10 ∨ c = 13 ∨ c = 9

/-- Advances past a line comment, after the two slashes have been consumed
(`skip_comment`, line-comment arm). -/
def skipLineComment : Nat → R Unit
  | 0 => rDiverge
  | n + 1 => do
    match ← rNext with
    | some c => if c = 10 then pure () else skipLineComment n
    | none => do
      let p ← rPos
      rErr p .unexpectedEof

/-- Advances past a block comment (`skip_comment`, block arm); the flag records
whether the previous character was a star (the inner loop of the source). -/
def skipBlockGo : Nat → Bool → R Unit
  | 0, _ => rDiverge
  | n + 1, sawStar => do
    match ← rNext with
    | some c =>
      if sawStar then
        if c = 47 then pure ()
        else if c = 42 then skipBlockGo n true
        else skipBlockGo n false
      else if c = 42 then skipBlockGo n true
      else skipBlockGo n false
    | none => do
      let p ← rPos
      rErr p .unexpectedEof

/-- Advances past a block comment body (`skip_comment`, outer loop of the block arm). -/
def skipBlockComment (n : Nat) : R Unit :=
  skipBlockGo n false

/-- Advances to the end of a comment given that the initial slash has been consumed
(`TextReaderExt::skip_comment`). -/
def skipComment (n : Nat) : R Unit := do
  let pos ← rPos
  match ← rNext with
  | some c =>
    if c = 47 then skipLineComment n
    else if c = 42 then skipBlockComment n
    else rErr pos .unexpectedChar
  | none => rErr pos .unexpectedEof

/-- Advances the stream past any whitespace characters (`TextReaderExt::skip_whitespace`). -/
def skipWhitespace (ac : Bool) : Nat → R Unit
  | 0 => rDiverge
  | n + 1 => do
    match ← rPeek with
    | some c =>
      if isWs c then do
        _ ← rNext
        skipWhitespace ac n
      else if ac ∧ c = 47 then do
        _ ← rNext
        skipComment n
        skipWhitespace ac n
      else pure ()
    | none => pure ()

/-- Advances past either a quote, returning its position, or a closing curly brace,
returning none; skips whitespace (`TextReaderExt::skip_to_first_entry`). -/
def skipToFirstEntry (ac : Bool) : Nat → R (Option Pos)
  | 0 => rDiverge
  | n + 1 => do
    let pos ← rPos
    match ← rNext with
    | some c =>
      if isWs c then skipToFirstEntry ac n
      else if ac ∧ c = 47 then do
        skipComment n
        skipToFirstEntry ac n
      else if c = chQuote then pure (some pos)
      else if c = chRBrace then pure none
      else rErr pos .unexpectedChar
    | none => rErr pos .unexpectedEof

/-- Second loop of `skip_to_next_entry`: after the comma, advances past the quote of the
next entry key. -/
def skipToNextEntryQuote (ac : Bool) : Nat → R (Option Pos)
  | 0 => rDiverge
  | n + 1 => do
    let pos ← rPos
    match ← rNext with
    | some c =>
      if isWs c then skipToNextEntryQuote ac n
      else if ac ∧ c = 47 then do
        skipComment n
        skipToNextEntryQuote ac n
      else if c = chQuote then pure (some pos)
      else rErr pos .unexpectedChar
    | none => rErr pos .unexpectedEof

/-- Advances past a comma and a quote, returning the quote position, or past a closing
curly brace, returning none (`TextReaderExt::skip_to_next_entry`). -/
def skipToNextEntry (ac : Bool) : Nat → R (Option Pos)
  | 0 => rDiverge
  | n + 1 => do
    let pos ← rPos
    match ← rNext with
    | some c =>
      if isWs c then skipToNextEntry ac n
      else if ac ∧ c = 47 then do
        skipComment n
        skipToNextEntry ac n
      else if c = 44 then skipToNextEntryQuote ac n
      else if c = chRBrace then pure none
      else rErr pos .unexpectedChar
    | none => rErr pos .unexpectedEof

/-- Advances to the start of an array value, returning true, or past a closing square
brace, returning false (`TextReaderExt::skip_to_first_item`). -/
def skipToFirstItem (ac : Bool) : Nat → R Bool
  | 0 => rDiverge
  | n + 1 => do
    let pos ← rPos
    match ← rPeek with
    | some c =>
      if isWs c then do
        _ ← rNext
        skipToFirstItem ac n
      else if ac ∧ c = 47 then do
        _ ← rNext
        skipComment n
        skipToFirstItem ac n
      else if c = chRBrack then do
        _ ← rNext
        pure false
      else pure true
    | none => rErr pos .unexpectedEof

/-- Advances past a comma, returning true, or past a closing square brace, returning
false (`TextReaderExt::skip_to_next_item`). -/
def skipToNextItem (ac : Bool) : Nat → R Bool
  | 0 => rDiverge
  | n + 1 => do
    let pos ← rPos
    match ← rNext with
    | some c =>
      if isWs c then skipToNextItem ac n
      else if ac ∧ c = 47 then do
        skipComment n
        skipToNextItem ac n
      else if c = 44 then pure true
      else if c = chRBrack then pure false
      else rErr pos .unexpectedChar
    | none => rErr pos .unexpectedEof

/-- Errors unless the stream is at the end of input (`TextReaderExt::read_eof`). -/
def readEof : R Unit := do
  match ← rPeek with
  | some _ => do
    let p ← rPos
    rErr p .unexpectedChar
  | none => pure ()

/-- Reads a JSON boolean (`TextReaderExt::read_bool`). -/
def readBool : R Bool := do
  let pos ← rPos
  match ← rNext with
  | some c =>
    if c = 116 then do
      if ← readExact (str "rue") then pure true else rErr pos .invalidLiteral
    else if c = 102 then do
      if ← readExact (str "alse") then pure false else rErr pos .invalidLiteral
    else rErr pos .expectedBool
  | none => rErr pos .unexpectedEof

/-- Reads an escape sequence in a quoted string, following the backslash
(`TextReaderExt::read_escape_sequence`). The unicode escape branch is unimplemented
in the source and is modeled as a fatal outcome. -/
def readEscapeSequence : R Ch := do
  let pos ← rPos
  match ← rNext with
  | some c =>
    if c = chQuote then pure chQuote
    else if c = chBackslash then pure chBackslash
    else if c = 47 then pure 47
    else if c = 98 then pure 8
    else if c = 102 then pure 12
    else if c = 110 then pure 10
    else if c = 114 then pure 13
    else if c = 116 then pure 9
    else if c = 117 then rFatal "unicode escape unimplemented"
    else rErr pos .unrecognizedEscape
  | none => do
    let p ← rPos
    rErr p .unexpectedEof

/-- Reads a quoted string into `data` as bytes, starting from the first character inside
the quotes and ending after the end quote (`TextReaderExt::read_str_bytes_into`). -/
def readStrBytesInto : Nat → List Byte → R (List Byte)
  | 0, _ => rDiverge
  | n + 1, data => do
    match ← rNext with
    | some c =>
      if c = chQuote then pure data
      else if c = chBackslash then do
        let e ← readEscapeSequence
        readStrBytesInto n (data ++ utf8Encode e)
      else readStrBytesInto n (data ++ utf8Encode c)
    | none => do
      let p ← rPos
      rErr p .unexpectedEof

/-- Loop of `read_str_bytes_into_or_match`: `consumed ++ suffix = expected` splits the
expected key into the part already matched and the part still pending. -/
def rsbomGo (expected : List Ch) : Nat → List Ch → List Ch → List Byte →
    R (Bool × List Byte)
  | 0, _, _, _ => rDiverge
  | n + 1, consumed, expCh :: suffixRest, data => do
    match ← rNext with
    | some c =>
      if c = chQuote then pure (false, data ++ strBytes consumed)
      else do
        let actCh ← if c = chBackslash then readEscapeSequence else pure c
        if expCh = actCh then rsbomGo expected n (consumed ++ [expCh]) suffixRest data
        else do
          let data2 ← readStrBytesInto n (data ++ strBytes consumed ++ utf8Encode actCh)
          pure (false, data2)
    | none => do
      let p ← rPos
      rErr p .unexpectedEof
  | n + 1, _, [], data => do
    match ← rNext with
    | some c =>
      if c = chQuote then pure (true, data)
      else do
        let extraCh ← if c = chBackslash then readEscapeSequence else pure c
        let data2 ← readStrBytesInto n (data ++ strBytes expected ++ utf8Encode extraCh)
        pure (false, data2)
    | none => do
      let p ← rPos
      rErr p .unexpectedEof

/-- Reads a quoted entry key; if it matches the expected string returns true, otherwise
returns false and appends the bytes of the actual key to `data`
(`TextReaderExt::read_str_bytes_into_or_match`). -/
def readStrBytesIntoOrMatch (expected : List Ch) (n : Nat) (data : List Byte) :
    R (Bool × List Byte) :=
  rsbomGo expected n [] expected data

/-- Advances until just past a colon, skipping whitespace
(`TextReaderExt::skip_past_colon`). -/
def skipPastColon (ac : Bool) : Nat → R Unit
  | 0 => rDiverge
  | n + 1 => do
    let pos ← rPos
    match ← rNext with
    | some c =>
      if isWs c then skipPastColon ac n
      else if ac ∧ c = 47 then do
        skipComment n
        skipPastColon ac n
      else if c = 58 then pure ()
      else rErr pos .unexpectedChar
    | none => rErr pos .unexpectedEof

/-- Appends a decimal digit to an unsigned builder of bit width `w`, failing on overflow
(`NumBuilder::push_digit` for the unsigned integer types). -/
def uPushDigit (w v d : Nat) : Option Nat :=
  if v * 10 + d < 2 ^ w then some (v * 10 + d) else none

/-- Appends a decimal digit to a `u32` builder (`<u32 as NumBuilder>::push_digit`). -/
def u32PushDigit (v d : Nat) : Option Nat :=
  uPushDigit 32 v d

/-- Converts a `u32` builder value to an `i32`, possibly negating, mirroring the
final conversion in the signed `from_builder` (checked_sub_unsigned / try_from). -/
def i32OfU32 (value : Nat) (negate : Bool) : Option Int :=
  if negate then
    if value ≤ 2 ^ 31 then some (-(value : Int)) else none
  else
    if value ≤ 2 ^ 31 - 1 then some (value : Int) else none

/-- Checked `i32` addition. -/
def i32CheckedAdd (x y : Int) : Option Int :=
  if -(2 ^ 31) ≤ x + y ∧ x + y ≤ 2 ^ 31 - 1 then some (x + y) else none

/-- Checked computation of `10^e` within an unsigned type of bit width `w`
(`checked_pow` applied to ten). -/
def checkedPow10 (w e : Nat) : Option Nat :=
  if 10 ^ e < 2 ^ w then some (10 ^ e) else none

/-- The unsigned `Num::from_builder` (macro `impl_unsigned` in `number.rs`),
for bit width `w`. -/
def uFromBuilder (w value : Nat) (negate : Bool) (exp10 : Int) : Option Nat :=
  if negate ∧ value ≠ 0 then none
  else if 0 ≤ exp10 then
    match checkedPow10 w exp10.toNat with
    | none => none
    | some pow => if value * pow < 2 ^ w then some (value * pow) else none
  else
    match checkedPow10 w (-exp10).toNat with
    | none => none
    | some pow => if value % pow = 0 then some (value / pow) else none

/-- The signed `Num::from_builder` (macro `impl_signed` in `number.rs`), for bit
width `w`; the builder is the corresponding unsigned type. -/
def iFromBuilder (w value : Nat) (negate : Bool) (exp10 : Int) : Option Int :=
  let scaled : Option Nat :=
    if 0 ≤ exp10 then
      match checkedPow10 w exp10.toNat with
      | none => none
      | some pow => if value * pow < 2 ^ w then some (value * pow) else none
    else
      match checkedPow10 w (-exp10).toNat with
      | none => none
      | some pow => if value % pow = 0 then some (value / pow) else none
  match scaled with
  | none => none
  | some v =>
    if negate then
      if v ≤ 2 ^ (w - 1) then some (-(v : Int)) else none
    else
      if v ≤ 2 ^ (w - 1) - 1 then some (v : Int) else none

/-- Bundles a `Num` implementation: the builder type, its initial (default) value, its
`push_digit`, and `from_builder`. -/
structure NumModel (T : Type) where
  B : Type
  init : B
  push : B → Nat → Option B
  fromBuilder : B → Bool → Int → Option T

/-- The `Num` implementation for `u32`. -/
def u32Num : NumModel Nat :=
  ⟨Nat, 0, u32PushDigit, fun v negate e => uFromBuilder 32 v negate e⟩

/-- The `Num` implementation for `i32` (builder is `u32`). -/
def i32Num : NumModel Int :=
  ⟨Nat, 0, u32PushDigit, fun v negate e => iFromBuilder 32 v negate e⟩

/-- The `Num` implementation for `f32`/`f64` as used by `skip_value`: its
`push_digit` always succeeds and `from_builder` always returns a value; the float
itself is irrelevant to control flow, so the value type is `Unit`. -/
def floatSkipNum : NumModel Unit :=
  ⟨Unit, (), fun _ _ => some (), fun _ _ _ => some ()⟩

/-- Exponent-digits loop of `read_number_into_builder` (after at least one exponent
digit has been read). `expB` is the `u32` exponent builder. -/
def rnibExpLoop {B : Type} (pos : Pos) (decimalExp : Int) (negate negateExp : Bool)
    (b : B) : Nat → Nat → R (B × Bool × Int)
  | 0, _ => rDiverge
  | n + 1, expB => do
    match ← rPeek with
    | some c =>
      if 48 ≤ c ∧ c ≤ 57 then do
        _ ← rNext
        match u32PushDigit expB (c - 48) with
        | some e2 => rnibExpLoop pos decimalExp negate negateExp b n e2
        | none => rErr pos .numberOverflow
      else
        match i32OfU32 expB negateExp with
        | none => rErr pos .numberOverflow
        | some e =>
          match i32CheckedAdd e decimalExp with
          | none => rErr pos .numberOverflow
          | some e2 => pure (b, negate, e2)
    | none =>
      match i32OfU32 expB negateExp with
      | none => rErr pos .numberOverflow
      | some e =>
        match i32CheckedAdd e decimalExp with
        | none => rErr pos .numberOverflow
        | some e2 => pure (b, negate, e2)

/-- Start of the exponent part of `read_number_into_builder` (the character after
`e`/`E`). The result of the first digit push is ignored, as in the source. -/
def rnibExpStart {B : Type} (pos : Pos) (decimalExp : Int) (negate : Bool) (b : B)
    (fuel : Nat) : R (B × Bool × Int) := do
  match ← rNext with
  | some c =>
    if 48 ≤ c ∧ c ≤ 57 then
      rnibExpLoop pos decimalExp negate false b fuel ((u32PushDigit 0 (c - 48)).getD 0)
    else if c = 43 then do
      match ← rNext with
      | some c2 =>
        if 48 ≤ c2 ∧ c2 ≤ 57 then
          rnibExpLoop pos decimalExp negate false b fuel
            ((u32PushDigit 0 (c2 - 48)).getD 0)
        else rErr pos .expectedNumber
      | none => rErr pos .unexpectedEof
    else if c = 45 then do
      match ← rNext with
      | some c2 =>
        if 48 ≤ c2 ∧ c2 ≤ 57 then
          rnibExpLoop pos decimalExp negate true b fuel
            ((u32PushDigit 0 (c2 - 48)).getD 0)
        else rErr pos .expectedNumber
      | none => rErr pos .unexpectedEof
    else rErr pos .expectedNumber
  | none => rErr pos .unexpectedEof

/-- Fractional-digits loop of `read_number_into_builder` (after the first fractional
digit). -/
def rnibFracLoop {B : Type} (push : B → Nat → Option B) (pos : Pos) (negate : Bool) :
    Nat → B → Int → R (B × Bool × Int)
  | 0, _, _ => rDiverge
  | n + 1, b, decimalExp => do
    match ← rPeek with
    | some c =>
      if 48 ≤ c ∧ c ≤ 57 then do
        _ ← rNext
        match push b (c - 48) with
        | some b2 => rnibFracLoop push pos negate n b2 (decimalExp - 1)
        | none => rErr pos .numberOverflow
      else if c = 101 ∨ c = 69 then do
        _ ← rNext
        rnibExpStart pos decimalExp negate b n
      else pure (b, negate, decimalExp)
    | none => pure (b, negate, decimalExp)

/-- Start of the fractional part of `read_number_into_builder` (the decimal point has
been consumed); the first fractional digit is mandatory. -/
def rnibFracStart {B : Type} (push : B → Nat → Option B) (pos : Pos) (negate : Bool)
    (fuel : Nat) (b : B) : R (B × Bool × Int) := do
  match ← rNext with
  | some c =>
    if 48 ≤ c ∧ c ≤ 57 then do
      match push b (c - 48) with
      | some b2 => rnibFracLoop push pos negate fuel b2 (-1)
      | none => rErr pos .numberOverflow
    else rErr pos .expectedNumber
  | none => rErr pos .unexpectedEof

/-- Remaining-integral-digits loop of `read_number_into_builder`. -/
def rnibIntLoop {B : Type} (push : B → Nat → Option B) (pos : Pos) (negate : Bool) :
    Nat → B → R (B × Bool × Int)
  | 0, _ => rDiverge
  | n + 1, b => do
    match ← rPeek with
    | some c =>
      if 48 ≤ c ∧ c ≤ 57 then do
        _ ← rNext
        match push b (c - 48) with
        | some b2 => rnibIntLoop push pos negate n b2
        | none => rErr pos .numberOverflow
      else if c = 46 then do
        _ ← rNext
        rnibFracStart push pos negate n b
      else if c = 101 ∨ c = 69 then do
        _ ← rNext
        rnibExpStart pos 0 negate b n
      else pure (b, negate, 0)
    | none => pure (b, negate, 0)

/-- Reads a JSON number into a builder, returning the builder, whether the number is
negated, and its base-10 exponent (`TextReaderExt::read_number_into_builder`). -/
def readNumberIntoBuilder {B : Type} (push : B → Nat → Option B) (b : B) (fuel : Nat) :
    R (B × Bool × Int) := do
  let pos ← rPos
  match ← rNext with
  | some c =>
    if c = 48 then do
      match ← rPeek with
      | some c2 =>
        if c2 = 46 then do
          _ ← rNext
          rnibFracStart push pos false fuel b
        else if c2 = 101 ∨ c2 = 69 then do
          _ ← rNext
          rnibExpStart pos 0 false b fuel
        else pure (b, false, 0)
      | none => pure (b, false, 0)
    else if 49 ≤ c ∧ c ≤ 57 then
      match push b (c - 48) with
      | some b2 => rnibIntLoop push pos false fuel b2
      | none => rErr pos .numberOverflow
    else if c = 45 then do
      match ← rNext with
      | some c2 =>
        if c2 = 48 then do
          match ← rPeek with
          | some c3 =>
            if c3 = 46 then do
              _ ← rNext
              rnibFracStart push pos true fuel b
            else if c3 = 101 ∨ c3 = 69 then do
              _ ← rNext
              rnibExpStart pos 0 true b fuel
            else pure (b, true, 0)
          | none => pure (b, true, 0)
        else if 49 ≤ c2 ∧ c2 ≤ 57 then
          match push b (c2 - 48) with
          | some b2 => rnibIntLoop push pos true fuel b2
          | none => rErr pos .numberOverflow
        else rErr pos .expectedNumber
      | none => rErr pos .unexpectedEof
    else rErr pos .expectedNumber
  | none => rErr pos .unexpectedEof

/-- Reads a JSON number (`TextReaderExt::read_number`). -/
def readNumberR {T : Type} (N : NumModel T) (fuel : Nat) : R T := do
  let pos ← rPos
  let (b, negate, exp) ← readNumberIntoBuilder N.push N.init fuel
  match N.fromBuilder b negate exp with
  | some v => pure v
  | none => rErr pos .numberOverflow

/-- The value of `usize::MAX`, used as a sentinel index in the lookback arena. -/
def USIZE_MAX : Nat := 2 ^ 64 - 1

/-- Identifies a type of JSON value (`ValueType`). -/
inductive ValueType where
  | string
  | number
  | object
  | array
  | bool
  | null
  deriving DecidableEq, Repr

/-- Identifies a type of JSON collection (`CollectionType`). -/
inductive CollectionType where
  | object
  | array
  deriving DecidableEq, Repr

/-- Describes a value that has been read but not yet returned (`LookbackValue`).
The exponent of a number is an `i16` in the source, kept in range at construction. -/
inductive LookbackValue where
  | string
  | number (negate : Bool) (exp : Int)
  | object (hasEntries : Bool)
  | array (hasItems : Bool)
  | bool (b : Bool)
  | null
  deriving DecidableEq, Repr

/-- An object entry or array item that has been read but not yet returned
(`LookbackItem`). `keyLenActive` packs the key byte length (high bits) with the
active flag (lowest bit), exactly as the `u32` field in the source. -/
structure LookbackItem where
  pos : Pos
  dataIndex : Nat
  nextSiblingIndex : Nat
  keyLenActive : Nat
  value : Option LookbackValue
  deriving DecidableEq, Repr

/-- An opened object or array on the deserializer stack (`StackItem`). -/
structure StackItem where
  pos : Pos
  firstChildIndex : Nat
  collectionType : CollectionType
  deriving DecidableEq, Repr

/-- A lookback key index entry (`LookbackKey`): the hash table is modeled as a list
searched with the same equality predicate the source passes to the raw table. -/
structure LookbackKey where
  depth : Nat
  index : Nat
  deriving DecidableEq, Repr

/-- The overall state of a `TextDeserializer` (`DeserializerState`). The
`NonZeroU32` streaming depths are modeled as `Option Nat` whose values are nonzero. -/
inductive DState where
  | streamingValue
  | lookbackValue (index : Nat) (streamingDepth : Option Nat)
  | nullValue (key : Option (List Ch)) (atStart : Bool) (streamingDepth : Option Nat)
  | collection (atStart : Bool) (streamingDepth : Option Nat)
  | streamingString (isKey : Bool)
  | lookbackString (headIndex endIndex : Nat) (valueIndex : Option Nat)
      (streamingDepth : Option Nat)
  deriving DecidableEq, Repr

/-- A `TextDeserializer` over a string reader: configuration, remaining input,
outline (stack, arena, key index, data buffer), state and error position.
`stackItems` stores the innermost open container first (the source pushes at the
end of a `Vec`; depth `d` lives at list position `length - d`). -/
structure Machine where
  allowComments : Bool
  reader : List Ch
  stackItems : List StackItem
  lookbackItems : List LookbackItem
  lookbackKeys : List LookbackKey
  lookbackData : List Byte
  state : DState
  errorPos : Pos
  deriving DecidableEq, Repr

/-- Result of a machine-level operation. -/
inductive MRes (a : Type) where
  | ok (val : a) (m : Machine)
  | err (e : DErr)
  | fatal (msg : String)
  | diverge
  deriving Repr, DecidableEq

/-- Whether a machine result is a fatal (panicking) outcome. -/
def MRes.isFatal {a : Type} : MRes a → Bool
  | .fatal _ => true
  | _ => false

/-- Whether a machine result is a recoverable error. -/
def MRes.isErr {a : Type} : MRes a → Bool
  | .err _ => true
  | _ => false

/-- Machine-level computation. -/
def M (a : Type) : Type := Machine → MRes a

instance : Monad M where
  pure x := fun m => .ok x m
  bind x f := fun m =>
    match x m with
    | .ok v m2 => f v m2
    | .err e => .err e
    | .fatal s => .fatal s
    | .diverge => .diverge

/-- Fatal assertion failure (a Rust panic). -/
def mFatal {a : Type} (s : String) : M a := fun _ => .fatal s

/-- Recoverable deserialization error. -/
def mErr {a : Type} (p : Pos) (e : ErrMsg) : M a := fun _ => .err ⟨p, e⟩

/-- Fuel exhaustion. -/
def mDiverge {a : Type} : M a := fun _ => .diverge

/-- Runs a reader computation on the machine reader. -/
def mLiftR {a : Type} (r : R a) : M a := fun m =>
  match m with
  | ⟨ac, rd, st, li, lk, ld, s, ep⟩ =>
    match r rd with
    | .ok v rest => .ok v ⟨ac, rest, st, li, lk, ld, s, ep⟩
    | .err e => .err e
    | .fatal msg => .fatal msg
    | .diverge => .diverge

/-- Reads the machine state. -/
def mGetState : M DState := fun m =>
  match m with
  | ⟨_, _, _, _, _, _, s, _⟩ => .ok s m

/-- Writes the machine state. -/
def mSetState (s : DState) : M Unit := fun m =>
  match m with
  | ⟨ac, rd, st, li, lk, ld, _, ep⟩ => .ok () ⟨ac, rd, st, li, lk, ld, s, ep⟩

/-- The current reader position. -/
def mReadPos : M Pos := fun m =>
  match m with
  | ⟨_, rd, _, _, _, _, _, _⟩ => .ok rd m

/-- Reads `error_pos`. -/
def mGetErrorPos : M Pos := fun m =>
  match m with
  | ⟨_, _, _, _, _, _, _, ep⟩ => .ok ep m

/-- Writes `error_pos`. -/
def mSetErrorPos (p : Pos) : M Unit := fun m =>
  match m with
  | ⟨ac, rd, st, li, lk, ld, s, _⟩ => .ok () ⟨ac, rd, st, li, lk, ld, s, p⟩

/-- Reads the configuration flag `allow_comments`. -/
def mGetAC : M Bool := fun m =>
  match m with
  | ⟨ac, _, _, _, _, _, _, _⟩ => .ok ac m

/-- Reads the lookback item arena. -/
def mItems : M (List LookbackItem) := fun m =>
  match m with
  | ⟨_, _, _, li, _, _, _, _⟩ => .ok li m

/-- The number of lookback items. -/
def mItemsLen : M Nat := fun m =>
  match m with
  | ⟨_, _, _, li, _, _, _, _⟩ => .ok li.length m

/-- Reads a lookback item by index; out of bounds is a panic in the source. -/
def mGetItem (i : Nat) : M LookbackItem := fun m =>
  match m with
  | ⟨_, _, _, li, _, _, _, _⟩ =>
    match li.get? i with
    | some it => .ok it m
    | none => .fatal "lookback item index out of bounds"

/-- Overwrites a lookback item by index. -/
def mSetItem (i : Nat) (it : LookbackItem) : M Unit := fun m =>
  match m with
  | ⟨ac, rd, st, li, lk, ld, s, ep⟩ => .ok () ⟨ac, rd, st, li.set i it, lk, ld, s, ep⟩

/-- Reads the lookback data buffer. -/
def mGetData : M (List Byte) := fun m =>
  match m with
  | ⟨_, _, _, _, _, ld, _, _⟩ => .ok ld m

/-- Overwrites the lookback data buffer. -/
def mSetData (d : List Byte) : M Unit := fun m =>
  match m with
  | ⟨ac, rd, st, li, lk, _, s, ep⟩ => .ok () ⟨ac, rd, st, li, lk, d, s, ep⟩

/-- The current length of the lookback data buffer. -/
def mDataLen : M Nat := fun m =>
  match m with
  | ⟨_, _, _, _, _, ld, _, _⟩ => .ok ld.length m

/-- Reads the stack (innermost first). -/
def mStack : M (List StackItem) := fun m =>
  match m with
  | ⟨_, _, st, _, _, _, _, _⟩ => .ok st m

/-- Reads the lookback key index. -/
def mGetKeys : M (List LookbackKey) := fun m =>
  match m with
  | ⟨_, _, _, _, lk, _, _, _⟩ => .ok lk m

/-- Overwrites the lookback key index. -/
def mSetKeys (ks : List LookbackKey) : M Unit := fun m =>
  match m with
  | ⟨ac, rd, st, li, _, ld, s, ep⟩ => .ok () ⟨ac, rd, st, li, ks, ld, s, ep⟩

/-- Pushes a stack item. -/
def mPushStack (si : StackItem) : M Unit := fun m =>
  match m with
  | ⟨ac, rd, st, li, lk, ld, s, ep⟩ => .ok () ⟨ac, rd, si :: st, li, lk, ld, s, ep⟩

/-- The top stack item; `unwrap` panics when the stack is empty. -/
def mStackLastUnwrap : M StackItem := fun m =>
  match m with
  | ⟨_, _, st, _, _, _, _, _⟩ =>
    match st with
    | si :: _ => .ok si m
    | [] => .fatal "called unwrap on a None value"

/-- The top stack item; `expect(NOT_COLLECTION)` panic when the stack is empty. -/
def mStackLastExpect : M StackItem := fun m =>
  match m with
  | ⟨_, _, st, _, _, _, _, _⟩ =>
    match st with
    | si :: _ => .ok si m
    | [] => .fatal "top of the deserialization stack is not an opened collection"

/-- Overwrites the top stack item (the source mutates it through `last_mut`). -/
def mSetStackLast (si : StackItem) : M Unit := fun m =>
  match m with
  | ⟨ac, rd, st, li, lk, ld, s, ep⟩ =>
    match st with
    | _ :: rest => .ok () ⟨ac, rd, si :: rest, li, lk, ld, s, ep⟩
    | [] => .fatal "called unwrap on a None value"

/-- Pops the top stack item; `unwrap` panics when the stack is empty. -/
def mPopStackUnwrap : M StackItem := fun m =>
  match m with
  | ⟨ac, rd, st, li, lk, ld, s, ep⟩ =>
    match st with
    | si :: rest => .ok si ⟨ac, rd, rest, li, lk, ld, s, ep⟩
    | [] => .fatal "called unwrap on a None value"

/-- `Outline::top_depth`: the depth of the top container, or none if the stack is
empty (`NonZeroU32::new(stack_items.len())`). -/
def topDepth (m : Machine) : Option Nat :=
  if m.stackItems.length = 0 then none else some m.stackItems.length

/-- Reads `top_depth`. -/
def mTopDepth : M (Option Nat) := fun m =>
  match m with
  | ⟨_, _, st, _, _, _, _, _⟩ =>
    .ok (if st.length = 0 then none else some st.length) m

/-- `top_depth().unwrap()`: panics when the stack is empty. -/
def mTopDepthUnwrap : M Nat := fun m =>
  match m with
  | ⟨_, _, st, _, _, _, _, _⟩ =>
    if st.length = 0 then .fatal "called unwrap on a None value"
    else .ok st.length m

/-- `NonZeroU32::new`: none exactly when the argument is zero. -/
def nzNew (n : Nat) : Option Nat :=
  if n = 0 then none else some n

/-- Appends an entry to the lookback key index (`RawTable::insert_entry`). -/
def mAppendKey (k : LookbackKey) : M Unit := fun m =>
  match m with
  | ⟨ac, rd, st, li, lk, ld, s, ep⟩ => .ok () ⟨ac, rd, st, li, lk ++ [k], ld, s, ep⟩

/-- `StackItem::assert_object`. -/
def mAssertObject (si : StackItem) : M Unit :=
  match si.collectionType with
  | .object => pure ()
  | .array => mFatal "top of the deserialization stack is not an opened object"

/-- `StackItem::assert_array`. -/
def mAssertArray (si : StackItem) : M Unit :=
  match si.collectionType with
  | .array => pure ()
  | .object => mFatal "top of the deserialization stack is not an opened array"

/-- The bytes of the key string of an entry item (`LookbackItem::key_bytes`). -/
def LookbackItem.keyBytes (it : LookbackItem) (data : List Byte) : List Byte :=
  (data.drop it.dataIndex).take (it.keyLenActive / 2)

/-- The data taken for a lookback value: position, value descriptor, payload slice and
its index range in `lookback_data`. -/
structure Taken where
  pos : Pos
  value : LookbackValue
  data : List Byte
  dataStart : Nat
  dataEnd : Nat

/-- `Outline::take_value`: asserts the item has an unread value, takes it (leaving a
placeholder), and returns it with its payload data. A second take of the same item is
a fatal assertion. -/
def takeValue (index : Nat) : M Taken := fun m =>
  match m with
  | ⟨ac, rd, st, li, lk, ld, s, ep⟩ =>
    match li.get? index with
    | none => .fatal "lookback item index out of bounds"
    | some item =>
      match item.value with
      | none => .fatal "value already read"
      | some v =>
        let keyLen := item.keyLenActive / 2
        let dataStart := item.dataIndex + keyLen
        let dataEnd :=
          match li.get? (index + 1) with
          | some it2 => it2.dataIndex
          | none => ld.length
        if dataStart ≤ dataEnd ∧ dataEnd ≤ ld.length then
          .ok ⟨item.pos, v, (ld.drop dataStart).take (dataEnd - dataStart),
            dataStart, dataEnd⟩
            ⟨ac, rd, st, li.set index { item with value := none }, lk, ld, s, ep⟩
        else .fatal "slice index out of range"

/-- `Outline::push_item`: appends a lookback item whose sibling link is the previous
last-child index, returning the new last-child index. -/
def outlinePushItem (lastChild : Nat) (pos : Pos) (dataIndex kla : Nat)
    (v : LookbackValue) : M Nat := fun m =>
  match m with
  | ⟨ac, rd, st, li, lk, ld, s, ep⟩ =>
    .ok li.length ⟨ac, rd, st, li ++ [⟨pos, dataIndex, lastChild, kla, some v⟩], lk, ld, s, ep⟩

/-- `first_unread_child`: follows sibling links from `fci` to the first item with an
unread value. Returns none on fuel exhaustion; `some none` when no unread child exists
(the caller leaves the stored index unchanged); `some (some i)` when found (the caller
stores `i` back into the stack item). -/
def firstUnreadChild (items : List LookbackItem) : Nat → Nat → Option (Option Nat)
  | 0, _ => none
  | fuel + 1, childIndex =>
    match items.get? childIndex with
    | none => some none
    | some item =>
      if item.value.isSome then some (some childIndex)
      else firstUnreadChild items fuel item.nextSiblingIndex

/-- Search loop of the `remove_entry` predicate in `try_push_entry`: finds the first
key-index entry at the given depth whose item key bytes equal `keyBytes`, returning it
together with the remaining entries. -/
def findKeyMatching (items : List LookbackItem) (data : List Byte) (depth : Nat)
    (keyBytes : List Byte) (seen : List LookbackKey) :
    List LookbackKey → Option (LookbackKey × List LookbackKey)
  | [] => none
  | lk :: rest =>
    if lk.depth = depth ∧
        ((items.get? lk.index).map (fun it => it.keyBytes data)) = some keyBytes then
      some (lk, seen.reverse ++ rest)
    else findKeyMatching items data depth keyBytes (lk :: seen) rest

/-- Removes the first key-index entry matching the given depth whose item key bytes
equal `keyBytes`, clearing the matched item's active flag, mirroring the
`remove_entry` closure in `try_push_entry`. Returns the removed entry. -/
def removeKeyMatching (depth : Nat) (keyBytes : List Byte) : M (Option LookbackKey) :=
  fun m =>
    match m with
    | ⟨ac, rd, st, li, lk, ld, s, ep⟩ =>
      match findKeyMatching li ld depth keyBytes [] lk with
      | none => .ok none m
      | some (k, rest) =>
        match li.get? k.index with
        | none => .ok (some k) ⟨ac, rd, st, li, rest, ld, s, ep⟩
        | some it =>
          .ok (some k)
            ⟨ac, rd, st,
              li.set k.index
                { it with keyLenActive := it.keyLenActive - it.keyLenActive % 2 },
              rest, ld, s, ep⟩

/-- Removes the key-index entry with the given depth and item index, mirroring the
`remove_entry` call in `next_entry`. Returns whether an entry was removed. -/
def removeKeyAt (depth idx : Nat) : List LookbackKey → Option (List LookbackKey)
  | [] => none
  | lk :: rest =>
    if lk.depth = depth ∧ lk.index = idx then some rest
    else
      match removeKeyAt depth idx rest with
      | some rest2 => some (lk :: rest2)
      | none => none

/-- Error message constant `NOT_VALUE`. -/
def notValueMsg : String := "top of the deserialization stack is not value"

/-- Error message constant `NOT_COLLECTION`. -/
def notCollectionMsg : String :=
  "top of the deserialization stack is not an opened collection"

/-- Error message constant `NOT_STRING`. -/
def notStringMsg : String := "top of the deserialization stack is not an opened string"

/-- `TextDeserializer::error_unexpected_virtual_null`: a missing-key error tagged to
the enclosing object's position; the keyless case is an unimplemented branch. -/
def errorUnexpectedVirtualNull {a : Type} (key : Option (List Ch)) : M a := do
  match key with
  | some k => do
    let si ← mStackLastUnwrap
    mErr si.pos (.missingKey k)
  | none => mFatal "virtual null without key unimplemented"

/-- `JsonDeserializer::peek_value_type` for the text deserializer. -/
def peekValueType : M ValueType := do
  match ← mGetState with
  | .streamingValue => do
    match ← mLiftR rPeek with
    | some c =>
      if c = chQuote then pure .string
      else if c = 45 ∨ (48 ≤ c ∧ c ≤ 57) then pure .number
      else if c = chLBrace then pure .object
      else if c = chLBrack then pure .array
      else if c = 116 ∨ c = 102 then pure .bool
      else pure .null
    | none => pure .null
  | .lookbackValue index _ => do
    let item ← mGetItem index
    match item.value with
    | some v =>
      match v with
      | .string => pure .string
      | .number _ _ => pure .number
      | .object _ => pure .object
      | .array _ => pure .array
      | .bool _ => pure .bool
      | .null => pure .null
    | none => mFatal "value already read"
  | .nullValue _ _ _ => pure .null
  | _ => mFatal notValueMsg

/-- `JsonDeserializer::peek_collection_type` for the text deserializer. -/
def peekCollectionType : M CollectionType := do
  let si ← mStackLastExpect
  pure si.collectionType

/-- `Outliner::pop_null` for the text deserializer. -/
def popNull : M Unit := do
  match ← mGetState with
  | .streamingValue => do
    let td ← mTopDepth
    mSetState (.collection false td)
    let p ← mReadPos
    mSetErrorPos p
    match ← mLiftR rNext with
    | some c =>
      if c = 110 then do
        let okRead ← mLiftR (readExact (str "ull"))
        if okRead then pure ()
        else do
          let ep ← mGetErrorPos
          mErr ep .invalidLiteral
      else do
        let ep ← mGetErrorPos
        mErr ep .expectedNull
    | none => do
      let ep ← mGetErrorPos
      mErr ep .unexpectedEof
  | .lookbackValue index sd => do
    let t ← takeValue index
    match t.value with
    | .null => do
      mSetState (.collection false sd)
      mSetErrorPos t.pos
    | _ => mErr t.pos .expectedNull
  | .nullValue _ atStart sd => do
    mSetState (.collection atStart sd)
  | _ => mFatal notValueMsg

/-- `Outliner::open_str` for the text deserializer. -/
def openStr : M Unit := do
  match ← mGetState with
  | .streamingValue => do
    let pos ← mReadPos
    match ← mLiftR rNext with
    | some c =>
      if c = chQuote then mSetState (.streamingString false)
      else mErr pos .expectedString
    | none => mErr pos .unexpectedEof
  | .lookbackValue index sd => do
    let t ← takeValue index
    match t.value with
    | .string => mSetState (.lookbackString t.dataStart t.dataEnd none sd)
    | _ => mErr t.pos .expectedString
  | .nullValue key _ _ => errorUnexpectedVirtualNull key
  | _ => mFatal notValueMsg

/-- `Deserializer::get_bool` for the text deserializer. -/
def getBool : M Bool := do
  match ← mGetState with
  | .streamingValue => do
    let td ← mTopDepth
    mSetState (.collection false td)
    let p ← mReadPos
    mSetErrorPos p
    mLiftR readBool
  | .lookbackValue index sd => do
    let t ← takeValue index
    match t.value with
    | .bool b => do
      mSetState (.collection false sd)
      mSetErrorPos t.pos
      pure b
    | _ => mErr t.pos .expectedBool
  | .nullValue key _ _ => errorUnexpectedVirtualNull key
  | _ => mFatal notValueMsg

/-- Decodes nibble-packed digit data from the lookback buffer into a number builder
(the digit loop in the lookback branch of `TextDeserializer::read_number`); a nibble
of fifteen terminates, and a digit push failure is an overflow. -/
def decodeNibbles {B : Type} (push : B → Nat → Option B) : List Byte → B → Option B
  | [], b => some b
  | byte :: rest, b =>
    let d0 := byte % 16
    if d0 = 15 then some b
    else
      match push b d0 with
      | none => none
      | some b1 =>
        let d1 := (byte / 16) % 16
        if d1 = 15 then some b1
        else
          match push b1 d1 with
          | none => none
          | some b2 => decodeNibbles push rest b2

/-- `TextDeserializer::read_number`: pops the top value and interprets it as a number
of the given `Num` implementation. -/
def readNumberD {T : Type} (N : NumModel T) (fuel : Nat) : M T := do
  match ← mGetState with
  | .streamingValue => do
    let td ← mTopDepth
    mSetState (.collection false td)
    let p ← mReadPos
    mSetErrorPos p
    mLiftR (readNumberR N fuel)
  | .lookbackValue index sd => do
    let t ← takeValue index
    match t.value with
    | .number negate exp => do
      mSetState (.collection false sd)
      mSetErrorPos t.pos
      match decodeNibbles N.push t.data N.init with
      | none => mErr t.pos .numberOverflow
      | some b =>
        match N.fromBuilder b negate exp with
        | some v => pure v
        | none => mErr t.pos .numberOverflow
    | _ => mErr t.pos .expectedNumber
  | .nullValue key _ _ => errorUnexpectedVirtualNull key
  | _ => mFatal notValueMsg

/-- `Deserializer::next_char` for the text deserializer; needs fuel because reading the
closing quote of an entry key skips whitespace up to the entry value. -/
def nextChar (fuel : Nat) : M (Option Ch) := do
  match ← mGetState with
  | .streamingString isKey => do
    match ← mLiftR rNext with
    | some c =>
      if c = chQuote then do
        let ac ← mGetAC
        if isKey then do
          mLiftR (skipPastColon ac fuel)
          mLiftR (skipWhitespace ac fuel)
          mSetState .streamingValue
        else do
          let td ← mTopDepth
          mSetState (.collection false td)
        pure none
      else if c = chBackslash then do
        let e ← mLiftR readEscapeSequence
        pure (some e)
      else pure (some c)
    | none => do
      let p ← mReadPos
      mErr p .unexpectedEof
  | .lookbackString headIndex endIndex valueIndex sd => do
    if headIndex < endIndex then do
      let data ← mGetData
      match utf8DecodeFirst ((data.drop headIndex).take (endIndex - headIndex)) with
      | some (c, sz) => do
        mSetState (.lookbackString (headIndex + sz) endIndex valueIndex sd)
        pure (some c)
      | none => mFatal "invalid utf8 in lookback data"
    else do
      match valueIndex with
      | some vi => mSetState (.lookbackValue vi sd)
      | none => mSetState (.collection false sd)
      pure none
  | _ => mFatal notStringMsg

/-- Key re-insertion loop in the lookback branch of `open_object`: walks the sibling
chain from the first child and inserts a key-index entry for each item. -/
def reinsertKeys (depth : Nat) : Nat → Nat → M Unit
  | 0, _ => mDiverge
  | fuel + 1, childIndex => do
    let len ← mItemsLen
    if childIndex < len then do
      let item ← mGetItem childIndex
      mAppendKey ⟨depth, childIndex⟩
      reinsertKeys depth fuel item.nextSiblingIndex
    else pure ()

/-- `JsonOutliner::open_object` for the text deserializer. -/
def openObject (fuel : Nat) : M Unit := do
  match ← mGetState with
  | .streamingValue => do
    let pos ← mReadPos
    match ← mLiftR rNext with
    | some c =>
      if c = chLBrace then do
        let len ← mItemsLen
        mPushStack ⟨pos, len, .object⟩
        let td ← mTopDepth
        mSetState (.collection true td)
      else mErr pos .expectedObject
    | none => mErr pos .unexpectedEof
  | .lookbackValue index sd => do
    let t ← takeValue index
    match t.value with
    | .object hasEntries => do
      mSetState (.collection true sd)
      if hasEntries then do
        mPushStack ⟨t.pos, index + 1, .object⟩
        let depth ← mTopDepthUnwrap
        reinsertKeys depth fuel (index + 1)
      else mPushStack ⟨t.pos, USIZE_MAX, .object⟩
    | _ => mErr t.pos .expectedObject
  | .nullValue key _ _ => errorUnexpectedVirtualNull key
  | _ => mFatal notValueMsg

/-- `Deserializer::open_list` for the text deserializer (the length of a JSON array is
never known up front, so the result is always none). -/
def openList : M (Option Nat) := do
  match ← mGetState with
  | .streamingValue => do
    let pos ← mReadPos
    match ← mLiftR rNext with
    | some c =>
      if c = chLBrack then do
        let len ← mItemsLen
        mPushStack ⟨pos, len, .array⟩
        let td ← mTopDepth
        mSetState (.collection true td)
        pure none
      else mErr pos .expectedArray
    | none => mErr pos .unexpectedEof
  | .lookbackValue index sd => do
    let t ← takeValue index
    match t.value with
    | .array hasItems => do
      mPushStack ⟨t.pos, if hasItems then index + 1 else USIZE_MAX, .array⟩
      mSetState (.collection true sd)
      pure none
    | _ => mErr t.pos .expectedArray
  | .nullValue key _ _ => errorUnexpectedVirtualNull key
  | _ => mFatal notValueMsg

/-- `Deserializer::next_item` for the text deserializer. -/
def nextItem (fuel : Nat) : M Bool := do
  match ← mGetState with
  | .collection atStart sd => do
    let depth ← mTopDepthUnwrap
    let si ← mStackLastUnwrap
    mAssertArray si
    if sd = some depth then do
      let ac ← mGetAC
      let hasItem ←
        if atStart then mLiftR (skipToFirstItem ac fuel)
        else do
          let b ← mLiftR (skipToNextItem ac fuel)
          if b then do
            mLiftR (skipWhitespace ac fuel)
            pure true
          else pure false
      if hasItem then do
        mSetState .streamingValue
        pure true
      else do
        let popped ← mPopStackUnwrap
        mSetErrorPos popped.pos
        mSetState (.collection false (nzNew (depth - 1)))
        pure false
    else do
      let items ← mItems
      match firstUnreadChild items fuel si.firstChildIndex with
      | none => mDiverge
      | some (some idx) => do
        mSetStackLast { si with firstChildIndex := idx }
        mSetState (.lookbackValue idx sd)
        pure true
      | some none => do
        let popped ← mPopStackUnwrap
        mSetErrorPos popped.pos
        mSetState (.collection false sd)
        pure false
  | _ => mFatal notCollectionMsg

/-- Loop of `correct_items`: clears the temporary entry flags and reverses the sibling
links of a freshly buffered container's children. -/
def correctItemsLoop : Nat → Nat → Nat → M Nat
  | 0, _, _ => mDiverge
  | fuel + 1, itemIndex, prevIndex => do
    let item ← mGetItem itemIndex
    mSetItem itemIndex { item with keyLenActive := item.keyLenActive - item.keyLenActive % 2 }
    if prevIndex < USIZE_MAX then do
      let itemN ← mGetItem prevIndex
      mSetItem prevIndex { itemN with nextSiblingIndex := itemIndex }
      correctItemsLoop fuel prevIndex itemN.nextSiblingIndex
    else pure itemIndex

/-- `correct_items`: corrects the reverse-built sibling chain ending at `lastChild`
into forward order, returning the index of the first item of the chain. -/
def correctItems (fuel : Nat) (lastChild : Nat) : M Nat := do
  let item ← mGetItem lastChild
  mSetItem lastChild { item with nextSiblingIndex := USIZE_MAX }
  correctItemsLoop fuel lastChild item.nextSiblingIndex

/-- The `LookbackNumBuilder` state: the bytes appended so far and the pending nibble. -/
def lnbPush : List Byte × Option Nat → Nat → Option (List Byte × Option Nat)
  | (target, some b), d => some (target ++ [b ||| (d <<< 4)], none)
  | (target, none), d => some (target, some d)

/-- The `Drop` implementation of `LookbackNumBuilder`: flushes the pending nibble with
a terminator nibble of fifteen, or appends a full terminator byte. -/
def lnbFlush : List Byte × Option Nat → List Byte
  | (target, some b) => target ++ [b ||| 0xF0]
  | (target, none) => target ++ [0xFF]

/-- Control phase of `read_lookback_value`: parsing a value (with the pending data
index and packed key length of the item about to be produced), deciding what comes
after a completed value, or closing the current nested container. -/
inductive RlvPhase where
  | value (dataIndex kla : Nat)
  | after
  | close
  deriving DecidableEq, Repr

/-- One step of `read_lookback_value` (`rlvStep fuel pos0 endDepth phase depth
lastChild ctype`): the `value` phase is the body of the `'next_value` loop, the
`after` phase is the `while depth > end_depth` check, and the `close` phase corrects
the children chain of the container being closed and returns into the enclosing
container. `pos0` is the position at entry to `read_lookback_value`. -/
def rlvStep : Nat → Pos → Nat → RlvPhase → Nat → Nat → CollectionType → M Nat
  | 0, _, _, _, _, _, _ => mDiverge
  | fuel + 1, pos0, endDepth, .value dataIndex kla, depth, lastChild, ctype => do
    let ac ← mGetAC
    match ← mLiftR rPeek with
    | some c =>
      if isWs c then do
        _ ← mLiftR rNext
        rlvStep fuel pos0 endDepth (.value dataIndex kla) depth lastChild ctype
      else if c = chQuote then do
        let pos ← mReadPos
        _ ← mLiftR rNext
        let data ← mGetData
        let data2 ← mLiftR (readStrBytesInto fuel data)
        mSetData data2
        let lc2 ← outlinePushItem lastChild pos dataIndex kla .string
        rlvStep fuel pos0 endDepth .after depth lc2 ctype
      else if c = 45 ∨ (48 ≤ c ∧ c ≤ 57) then do
        let pos ← mReadPos
        let data ← mGetData
        let (b2, negate, exp) ← mLiftR (readNumberIntoBuilder lnbPush (data, none) fuel)
        mSetData (lnbFlush b2)
        if -(2 ^ 15) ≤ exp ∧ exp ≤ 2 ^ 15 - 1 then do
          let lc2 ← outlinePushItem lastChild pos dataIndex kla (.number negate exp)
          rlvStep fuel pos0 endDepth .after depth lc2 ctype
        else mErr pos .numberOverflow
      else if c = chLBrace then do
        let startPos ← mReadPos
        _ ← mLiftR rNext
        match ← mLiftR (skipToFirstEntry ac fuel) with
        | some pos => do
          _ ← outlinePushItem lastChild startPos dataIndex kla (.object true)
          let dataIndex2 ← mDataLen
          let data ← mGetData
          let data2 ← mLiftR (readStrBytesInto fuel data)
          mSetData data2
          let keyEnd ← mDataLen
          let keyLen := keyEnd - dataIndex2
          if keyLen ≤ 2 ^ 31 - 1 then do
            mLiftR (skipPastColon ac fuel)
            if depth + 1 ≤ 2 ^ 32 - 1 then
              rlvStep fuel pos0 endDepth (.value dataIndex2 (keyLen * 2 + 1)) (depth + 1)
                USIZE_MAX .object
            else mFatal "depth overflow"
          else mErr pos .keyTooLong
        | none => do
          let lc2 ← outlinePushItem lastChild startPos dataIndex kla (.object false)
          rlvStep fuel pos0 endDepth .after depth lc2 ctype
      else if c = chLBrack then do
        let startPos ← mReadPos
        _ ← mLiftR rNext
        let hasItems ← mLiftR (skipToFirstItem ac fuel)
        if hasItems then do
          _ ← outlinePushItem lastChild startPos dataIndex kla (.array true)
          let dataIndex2 ← mDataLen
          if depth + 1 ≤ 2 ^ 32 - 1 then
            rlvStep fuel pos0 endDepth (.value dataIndex2 0) (depth + 1) USIZE_MAX .array
          else mFatal "depth overflow"
        else do
          let lc2 ← outlinePushItem lastChild startPos dataIndex kla (.array false)
          rlvStep fuel pos0 endDepth .after depth lc2 ctype
      else if c = 116 then do
        let pos ← mReadPos
        _ ← mLiftR rNext
        let okRead ← mLiftR (readExact (str "rue"))
        if okRead then do
          let lc2 ← outlinePushItem lastChild pos dataIndex kla (.bool true)
          rlvStep fuel pos0 endDepth .after depth lc2 ctype
        else mErr pos .invalidLiteral
      else if c = 102 then do
        let pos ← mReadPos
        _ ← mLiftR rNext
        let okRead ← mLiftR (readExact (str "alse"))
        if okRead then do
          let lc2 ← outlinePushItem lastChild pos dataIndex kla (.bool false)
          rlvStep fuel pos0 endDepth .after depth lc2 ctype
        else mErr pos .invalidLiteral
      else if c = 110 then do
        let pos ← mReadPos
        _ ← mLiftR rNext
        let okRead ← mLiftR (readExact (str "ull"))
        if okRead then do
          let lc2 ← outlinePushItem lastChild pos dataIndex kla .null
          rlvStep fuel pos0 endDepth .after depth lc2 ctype
        else mErr pos .invalidLiteral
      else mErr pos0 .unexpectedChar
    | none => mErr pos0 .unexpectedEof
  | fuel + 1, pos0, endDepth, .after, depth, lastChild, ctype => do
    let ac ← mGetAC
    if depth > endDepth then
      match ctype with
      | .object => do
        match ← mLiftR (skipToNextEntry ac fuel) with
        | some pos => do
          let dataIndex2 ← mDataLen
          let data ← mGetData
          let data2 ← mLiftR (readStrBytesInto fuel data)
          mSetData data2
          let keyEnd ← mDataLen
          let keyLen := keyEnd - dataIndex2
          if keyLen ≤ 2 ^ 31 - 1 then do
            mLiftR (skipPastColon ac fuel)
            rlvStep fuel pos0 endDepth (.value dataIndex2 (keyLen * 2 + 1)) depth
              lastChild ctype
          else mErr pos .keyTooLong
        | none => rlvStep fuel pos0 endDepth .close depth lastChild ctype
      | .array => do
        let more ← mLiftR (skipToNextItem ac fuel)
        if more then do
          let dataIndex2 ← mDataLen
          rlvStep fuel pos0 endDepth (.value dataIndex2 0) depth lastChild ctype
        else rlvStep fuel pos0 endDepth .close depth lastChild ctype
    else do
      let len ← mItemsLen
      let item ← mGetItem lastChild
      mSetItem lastChild { item with nextSiblingIndex := len }
      pure lastChild
  | fuel + 1, pos0, endDepth, .close, depth, lastChild, _ => do
    let firstChild ← correctItems fuel lastChild
    if firstChild = 0 then mFatal "index underflow"
    else do
      let parentIndex := firstChild - 1
      if depth - 1 = 0 then mFatal "called unwrap on a None value"
      else do
        let parent ← mGetItem parentIndex
        let ctype2 : CollectionType :=
          if parent.keyLenActive % 2 = 1 then .object else .array
        rlvStep fuel pos0 endDepth .after (depth - 1) parentIndex ctype2

/-- `TextReaderExt::read_lookback_value`: reads a JSON value into the arena, returning
the index of its item. -/
def readLookbackValue (fuel : Nat) (dataIndex kla : Nat) : M Nat := do
  let pos0 ← mReadPos
  let depth ← mTopDepthUnwrap
  rlvStep fuel pos0 depth (.value dataIndex kla) depth USIZE_MAX .object

/-- Entry-scanning loop of `try_push_entry`: reads entries off the stream; on a key
match delivers the value directly from the stream, otherwise buffers the whole entry
value into the arena and indexes its key. The reader is positioned at the first
character inside the key quotes; `keyPos` is the position of the opening quote. -/
def tpeLoop (key : List Ch) (depth : Nat) : Nat → Pos → M Bool
  | 0, _ => mDiverge
  | fuel + 1, keyPos => do
    let ac ← mGetAC
    let dataIndex ← mDataLen
    let data ← mGetData
    let (found, data2) ← mLiftR (readStrBytesIntoOrMatch key fuel data)
    mSetData data2
    mLiftR (skipPastColon ac fuel)
    if found then do
      mLiftR (skipWhitespace ac fuel)
      mSetState .streamingValue
      pure true
    else do
      let keyEnd ← mDataLen
      let keyLen := keyEnd - dataIndex
      if keyLen ≤ 2 ^ 31 - 1 then do
        let itemIdx ← readLookbackValue fuel dataIndex (keyLen * 2 + 1)
        mAppendKey ⟨depth, itemIdx⟩
        match ← mLiftR (skipToNextEntry ac fuel) with
        | some kp2 => tpeLoop key depth fuel kp2
        | none => pure false
      else mErr keyPos .keyTooLong

/-- `JsonDeserializer::try_push_entry` for the text deserializer. -/
def tryPushEntry (key : List Ch) (fuel : Nat) : M Bool := do
  match ← mGetState with
  | .collection atStart sd => do
    let depth ← mTopDepthUnwrap
    let si ← mStackLastUnwrap
    mAssertObject si
    let items ← mItems
    let anyUnread ←
      match firstUnreadChild items fuel si.firstChildIndex with
      | none => mDiverge
      | some (some idx) => do
        mSetStackLast { si with firstChildIndex := idx }
        pure true
      | some none => pure false
    let fromArena ←
      if anyUnread then do
        match ← removeKeyMatching depth (strBytes key) with
        | some entry => do
          mSetState (.lookbackValue entry.index sd)
          pure true
        | none => pure false
      else pure false
    if fromArena then pure true
    else if sd = some depth then do
      let ac ← mGetAC
      let keyPos ←
        if atStart then mLiftR (skipToFirstEntry ac fuel)
        else mLiftR (skipToNextEntry ac fuel)
      match keyPos with
      | some kp => do
        let found ← tpeLoop key depth fuel kp
        if found then pure true
        else do
          mSetState (.collection atStart (nzNew (depth - 1)))
          pure false
      | none => do
        mSetState (.collection atStart (nzNew (depth - 1)))
        pure false
    else pure false
  | _ => mFatal notCollectionMsg

/-- `JsonDeserializer::next_entry` for the text deserializer. -/
def nextEntry (fuel : Nat) : M Bool := do
  match ← mGetState with
  | .collection atStart sd => do
    let depth ← mTopDepthUnwrap
    let si ← mStackLastUnwrap
    mAssertObject si
    let items ← mItems
    match firstUnreadChild items fuel si.firstChildIndex with
    | none => mDiverge
    | some (some itemIndex) => do
      mSetStackLast { si with firstChildIndex := itemIndex }
      let item ← mGetItem itemIndex
      let keys ← mGetKeys
      match removeKeyAt depth itemIndex keys with
      | none => mFatal "assertion failed on entry removal"
      | some keys2 => do
        mSetKeys keys2
        mSetItem itemIndex
          { item with keyLenActive := item.keyLenActive - item.keyLenActive % 2 }
        mSetState (.lookbackString item.dataIndex
          (item.dataIndex + item.keyLenActive / 2) (some itemIndex) sd)
        pure true
    | some none => do
      if sd = some depth then do
        let ac ← mGetAC
        let keyPos ←
          if atStart then mLiftR (skipToFirstEntry ac fuel)
          else mLiftR (skipToNextEntry ac fuel)
        match keyPos with
        | some _ => do
          mSetState (.streamingString true)
          pure true
        | none => do
          let popped ← mPopStackUnwrap
          mSetErrorPos popped.pos
          mSetState (.collection false (nzNew (depth - 1)))
          pure false
      else do
        let popped ← mPopStackUnwrap
        mSetErrorPos popped.pos
        mSetState (.collection false sd)
        pure false
  | _ => mFatal notCollectionMsg

/-- `JsonDeserializer::push_null` for the text deserializer. -/
def pushNull (key : Option (List Ch)) : M Unit := do
  match ← mGetState with
  | .collection atStart sd => mSetState (.nullValue key atStart sd)
  | _ => mFatal notCollectionMsg

/-- `Deserializer::error_missing_item` for the text deserializer. -/
def errorMissingItem {a : Type} : M a := do
  let ep ← mGetErrorPos
  mErr ep .missingItems

/-- `Deserializer::error_extra_item` for the text deserializer. -/
def errorExtraItem {a : Type} : M a := do
  let si ← mStackLastExpect
  mAssertArray si
  mErr si.pos .excessItems

/-- `JsonDeserializer::error_missing_entry` for the text deserializer. -/
def errorMissingEntry {a : Type} (key : List Ch) : M a := do
  let ep ← mGetErrorPos
  mErr ep (.missingKey key)

/-- `JsonDeserializer::error_extra_entry` for the text deserializer. -/
def errorExtraEntry {a : Type} (key : List Ch) : M a := do
  let si ← mStackLastExpect
  mAssertObject si
  mErr si.pos (.extraKey key)

/-- The standard `Outliner::push_field` implementation for a JSON deserializer
(`push_field` in `json/src/deserialize/mod.rs`). -/
def pushField (name : List Ch) (fuel : Nat) : M Unit := do
  match ← peekCollectionType with
  | .object => do
    let found ← tryPushEntry name fuel
    if found then pure () else pushNull (some name)
  | .array => do
    let has ← nextItem fuel
    if has then pure () else errorMissingItem

/-- `Deserializer::check_null` for the text deserializer. -/
def checkNull : M Bool := do
  match ← peekValueType with
  | .null => do
    popNull
    pure true
  | _ => pure false

/-- Control phase of the value-skipping routines: skipping a value
(`skip_value`), draining list items (the loop in its array arm), draining an object
(`skip_object`), or skipping the rest of an opened string (`skip_str`). -/
inductive SkipPhase where
  | value
  | listItems
  | object
  | str
  deriving DecidableEq, Repr

/-- One step of the mutually recursive skipping routines `skip_value`,
`skip_object` and `skip_str` of `JsonDeserializer`/`Deserializer`. -/
def skipStep : Nat → SkipPhase → M Unit
  | 0, _ => mDiverge
  | fuel + 1, .value => do
    match ← peekValueType with
    | .string => do
      openStr
      skipStep fuel .str
    | .number => do
      _ ← readNumberD floatSkipNum fuel
      pure ()
    | .object => do
      openObject fuel
      skipStep fuel .object
    | .array => do
      _ ← openList
      skipStep fuel .listItems
    | .bool => do
      _ ← getBool
      pure ()
    | .null => popNull
  | fuel + 1, .listItems => do
    let has ← nextItem fuel
    if has then do
      skipStep fuel .value
      skipStep fuel .listItems
    else pure ()
  | fuel + 1, .object => do
    let has ← nextEntry fuel
    if has then do
      skipStep fuel .str
      skipStep fuel .value
      skipStep fuel .object
    else pure ()
  | fuel + 1, .str => do
    match ← nextChar fuel with
    | some _ => skipStep fuel .str
    | none => pure ()

/-- `JsonDeserializer::skip_value`: pops the top value without deserialization. -/
def skipValue (fuel : Nat) : M Unit :=
  skipStep fuel .value

/-- `JsonDeserializer::skip_object`: drains and pops an opened object. -/
def skipObject (fuel : Nat) : M Unit :=
  skipStep fuel .object

/-- `Deserializer::skip_str`: skips the remainder of an opened string. -/
def skipStr (fuel : Nat) : M Unit :=
  skipStep fuel .str

/-- `Deserializer::flush_str`: reads the remainder of an opened string. -/
def flushStr : Nat → M (List Ch)
  | 0 => mDiverge
  | fuel + 1 => do
    match ← nextChar fuel with
    | some c => do
      let rest ← flushStr fuel
      pure (c :: rest)
    | none => pure []

/-- `Deserializer::read_str`: pops the top value as a string. -/
def readStrD (fuel : Nat) : M (List Ch) := do
  openStr
  flushStr fuel

/-- The standard `Outliner::open_struct` implementation for a JSON deserializer; the
catch-all arm is an unimplemented branch in the source. -/
def openStructD (fuel : Nat) : M Unit := do
  match ← peekValueType with
  | .object => openObject fuel
  | .array => do
    _ ← openList
    pure ()
  | _ => mFatal "open struct on non-collection unimplemented"

/-- The standard `Outliner::close_struct` implementation for a JSON deserializer. -/
def closeStruct (fuel : Nat) : M Unit := do
  match ← peekCollectionType with
  | .object => skipObject fuel
  | .array => do
    let has ← nextItem fuel
    if has then do
      skipValue fuel
      errorExtraItem
    else pure ()

/-- The standard `Outliner::push_item` implementation for a JSON deserializer. -/
def pushItem (fuel : Nat) : M Unit := do
  let has ← nextItem fuel
  if has then pure () else errorMissingItem

/-- The standard `Outliner::close_list` implementation for a JSON deserializer. -/
def closeList (fuel : Nat) : M Unit := do
  let has ← nextItem fuel
  if has then do
    skipValue fuel
    errorExtraItem
  else pure ()

/-- `TextDeserializer::close`: asserts the stack is spent and verifies end of input. -/
def closeD (fuel : Nat) : M Unit := do
  match ← mGetState with
  | .collection false none => do
    let stack ← mStack
    if stack.isEmpty then do
      let ac ← mGetAC
      mLiftR (skipWhitespace ac fuel)
      mLiftR readEof
    else mFatal "assertion failed: stack not empty on close"
  | _ => mFatal "assertion failed: state not a finished collection on close"

/-- `TextDeserializer::new` with the default (strict) configuration: skips leading
whitespace and initializes the machine with a single value on the stack. -/
def newMachine (ac : Bool) (fuel : Nat) (s : List Ch) : RRes Machine :=
  match skipWhitespace ac fuel s with
  | .ok _ rest => .ok ⟨ac, rest, [], [], [], [], .streamingValue, rest⟩ rest
  | .err e => .err e
  | .fatal msg => .fatal msg
  | .diverge => .diverge

/-- The final result of a whole decode (`from_str`): the machine is dropped. -/
inductive RunRes (a : Type) where
  | ok (val : a)
  | err (e : DErr)
  | fatal (msg : String)
  | diverge
  deriving DecidableEq, Repr

/-- Runs a decode program the way `from_str` does: construct the deserializer with the
default configuration, run the program (the work of `T::deserialize`), then `close`. -/
def runDecode {a : Type} (prog : M a) (fuel : Nat) (s : List Ch) : RunRes a :=
  match newMachine false fuel s with
  | .ok m _ =>
    match prog m with
    | .ok v m2 =>
      match closeD fuel m2 with
      | .ok _ _ => .ok v
      | .err e => .err e
      | .fatal msg => .fatal msg
      | .diverge => .diverge
    | .err e => .err e
    | .fatal msg => .fatal msg
    | .diverge => .diverge
  | .err e => .err e
  | .fatal msg => .fatal msg
  | .diverge => .diverge

/-- `from_str` for `u32`: the `Deserialize` implementation is `get_u32`, which is
`read_number` at the `u32` instance. -/
def fromStrU32 (fuel : Nat) (s : List Ch) : RunRes Nat :=
  runDecode (readNumberD u32Num fuel) fuel s

/-- `from_str` for `i32`. -/
def fromStrI32 (fuel : Nat) (s : List Ch) : RunRes Int :=
  runDecode (readNumberD i32Num fuel) fuel s

/-- Renders one object entry as JSON text: a quoted key, a colon, and raw value text. -/
def renderEntry : List Ch × List Ch → List Ch
  | (k, v) => [chQuote] ++ k ++ [chQuote, 58] ++ v

/-- Renders an object from a list of (key, raw value text) entries. -/
def renderObj (es : List (List Ch × List Ch)) : List Ch :=
  [chLBrace] ++ List.intercalate [44] (es.map renderEntry) ++ [chRBrace]

/-- Raw JSON text of a quoted string value. -/
def renderStr (s : List Ch) : List Ch :=
  [chQuote] ++ s ++ [chQuote]

/-- Decode program for a struct with the single declared non-optional field `name` of
string type, as generated by the derive layer: open the struct, request the field,
read a string, close the struct. -/
def progName (fuel : Nat) : M (List Ch) := do
  openStructD fuel
  pushField (str "name") fuel
  let s ← readStrD fuel
  closeStruct fuel
  pure s

/-- Decode program for a struct with declared field order `a` (unsigned 32-bit
integer), `b` (a nested struct with one boolean field `k`), `c` (string): the fixed
sequence of `push_field` calls the derive layer emits, followed by `close_struct`. -/
def progABC (fuel : Nat) : M (Nat × Bool × List Ch) := do
  openStructD fuel
  pushField (str "a") fuel
  let x ← readNumberD u32Num fuel
  pushField (str "b") fuel
  openStructD fuel
  pushField (str "k") fuel
  let y ← getBool
  closeStruct fuel
  pushField (str "c") fuel
  let z ← readStrD fuel
  closeStruct fuel
  pure (x, y, z)

/-- The fixed entry set for the order-independence theorem: key `a` bound to a number,
`b` to a nested object, `c` to a string. -/
def entriesABC : List (List Ch × List Ch) :=
  [(str "a", (str "1")),
    (str "b", renderObj [(str "k", (str "true"))]),
    (str "c", renderStr (str "hi"))]


/-! ### NameMap (`src/core/src/name_map.rs`)

Names are UTF-8 byte strings, modelled as `List Nat`; values as `Nat`.
A `NameMap` is the sorted slice of `(name, value)` pairs; a lookup cursor
is the pair `(cands, input_len)`.  Rust panics (`unreachable!()`, slice
index out of bounds) and fuel exhaustion are modelled as `none`. -/

/-- `cmp_bytes` from name_map.rs: lexicographic byte comparison. -/
def cmp_bytes : List Nat → List Nat → Ordering
  | [], [] => .eq
  | [], _ :: _ => .lt
  | _ :: _, [] => .gt
  | l :: ls, r :: rs =>
    if l < r then .lt
    else if r < l then .gt
    else cmp_bytes ls rs

/-- `truncate_slice` from name_map.rs: `&data[start..]` truncated to `len`. -/
def truncate_slice (data : List Nat) (start len : Nat) : List Nat :=
  let d := data.drop start
  if d.length > len then d.take len else d

/-- The second binary-search loop of `write_bytes` (extend the lower bound
to include all matching candidates); `Ordering.Greater` is `unreachable!()`. -/
def wbLower (cands : List (List Nat × Nat)) (inputLen : Nat) (data : List Nat) :
    Nat → Nat → Nat → Option Nat
  | 0, lo, lo_hi => if lo < lo_hi then none else some lo
  | f + 1, lo, lo_hi =>
    if lo < lo_hi then
      let mid := lo + (lo_hi - lo) / 2
      match cands[mid]? with
      | none => none
      | some e =>
        match cmp_bytes (truncate_slice e.1 inputLen data.length) data with
        | .lt => wbLower cands inputLen data f (mid + 1) lo_hi
        | .gt => none
        | .eq => wbLower cands inputLen data f lo mid
    else some lo

/-- The third binary-search loop of `write_bytes` (extend the upper bound
to include all matching candidates); `Ordering.Less` is `unreachable!()`. -/
def wbUpper (cands : List (List Nat × Nat)) (inputLen : Nat) (data : List Nat) :
    Nat → Nat → Nat → Option Nat
  | 0, hi_lo, hi => if hi_lo < hi then none else some hi
  | f + 1, hi_lo, hi =>
    if hi_lo < hi then
      let mid := hi_lo + (hi - hi_lo) / 2
      match cands[mid]? with
      | none => none
      | some e =>
        match cmp_bytes (truncate_slice e.1 inputLen data.length) data with
        | .lt => none
        | .gt => wbUpper cands inputLen data f hi_lo mid
        | .eq => wbUpper cands inputLen data f (mid + 1) hi
    else some hi

/-- The first binary-search loop of `NameMapLookup::write_bytes`
(narrowing `lo..hi` until some candidate matches the new data). -/
def wbMain (cands : List (List Nat × Nat)) (inputLen : Nat) (data : List Nat) :
    Nat → Nat → Nat → Option (Nat × Nat)
  | 0, lo, hi => if lo < hi then none else some (lo, hi)
  | f + 1, lo, hi =>
    if lo < hi then
      let mid := lo + (hi - lo) / 2
      match cands[mid]? with
      | none => none
      | some e =>
        match cmp_bytes (truncate_slice e.1 inputLen data.length) data with
        | .lt => wbMain cands inputLen data f (mid + 1) hi
        | .gt => wbMain cands inputLen data f lo mid
        | .eq =>
          match wbLower cands inputLen data f lo mid with
          | none => none
          | some lo2 =>
            match wbUpper cands inputLen data f (mid + 1) hi with
            | none => none
            | some hi2 => some (lo2, hi2)
    else some (lo, hi)

/-- `NameMapLookup::write_bytes`: narrows `cands` to `cands[lo..hi]` and
adds `data.len()` to `input_len`. -/
def write_bytes (cands : List (List Nat × Nat)) (inputLen : Nat) (data : List Nat) :
    Option (List (List Nat × Nat) × Nat) :=
  match wbMain cands inputLen data (cands.length + 1) 0 cands.length with
  | none => none
  | some (lo, hi) =>
    if lo ≤ hi ∧ hi ≤ cands.length then
      some ((cands.drop lo).take (hi - lo), inputLen + data.length)
    else none

/-- `NameMapLookup::result`: the first candidate, if its full length
equals the number of bytes written. -/
def result (cands : List (List Nat × Nat)) (inputLen : Nat) : Option Nat :=
  match cands with
  | [] => none
  | (key, value) :: _ => if key.length = inputLen then some value else none

/-- Writing a sequence of byte chunks into a lookup cursor. -/
def write_chunks (st : Option (List (List Nat × Nat) × Nat)) :
    List (List Nat) → Option (List (List Nat × Nat) × Nat)
  | [] => st
  | d :: ds =>
    match st with
    | none => none
    | some (c, il) => write_chunks (write_bytes c il d) ds

/-- The mathematical association: the value paired with the first
occurrence of `s` in the table. -/
def assocName (table : List (List Nat × Nat)) (s : List Nat) : Option Nat :=
  match table with
  | [] => none
  | (k, v) :: rest => if k = s then some v else assocName rest s

/-- `w` is a prefix of `k` (as byte lists). -/
def pfx (w k : List Nat) : Bool :=
  k.take w.length == w

/-- Rank of an `Ordering`, for monotonicity statements. -/
def ordRank : Ordering → Nat
  | .lt => 0
  | .eq => 1
  | .gt => 2


/-- The ordering computed by `write_bytes` for the candidate at index `i`
(defaulting to `eq` out of range). -/
def candCmpO (cs : List (List Nat × Nat)) (il : Nat) (d : List Nat) (i : Nat) : Ordering :=
  match cs[i]? with
  | none => Ordering.eq
  | some e => cmp_bytes (truncate_slice e.1 il d.length) d

/-! ### The JSON TextSerializer (`src/json/src/serialize/text.rs`)

The writer is a `String` accumulating characters (`TextWriter` for
`&mut String`, whose error type is `Infallible`), so serializer
operations are pure state transformers. -/

/-- Serializer state: written output plus the `TextSerializer` fields
`config.indent`, `depth`, `in_key`, `at_first`. -/
structure SState where
  out : List Ch
  indent : Option (List Ch)
  depth : Nat
  in_key : Bool
  at_first : Bool
  deriving DecidableEq, Repr

/-- Appends characters to the output (`TextWriter::write_str` / `write_char`). -/
def sWrite (s : List Ch) (st : SState) : SState :=
  { st with out := st.out ++ s }

/-- Writes the indent sequence `depth` times. -/
def sWriteIndents (ind : List Ch) : Nat → SState → SState
  | 0, st => st
  | n + 1, st => sWriteIndents ind n (sWrite ind st)

/-- `TextSerializer::pop_null`. -/
def sPopNull (st : SState) : SState :=
  sWrite (str "null") st

/-- `TextSerializer::open_str`. -/
def sOpenStr (st : SState) : SState :=
  sWrite [chQuote] st

/-- `TextSerializer::close_str`. -/
def sCloseStr (st : SState) : SState :=
  let st := sWrite [chQuote] st
  if st.in_key then { sWrite (str ": ") st with in_key := false } else st

/-- `TextSerializer::put_bool` (the `Serialize` impl for `bool`). -/
def sPutBool (b : Bool) (st : SState) : SState :=
  sWrite (if b then str "true" else str "false") st

/-- `TextSerializer::open_object` (also `open_struct`). -/
def sOpenObject (st : SState) : SState :=
  sWrite (str "\x7b") { st with depth := st.depth + 1, at_first := true }

/-- `TextSerializer::add_entry`. -/
def sAddEntry (st : SState) : SState :=
  let st :=
    if st.at_first then { st with at_first := false }
    else sWrite (str ",") st
  let st :=
    match st.indent with
    | some ind => sWriteIndents ind st.depth (sWrite [10] st)
    | none => sWrite (str " ") st
  sWrite [chQuote] { st with in_key := true }

/-- `TextSerializer::append_char`, with JSON escaping. -/
def sAppendChar (c : Ch) (st : SState) : SState :=
  if c = chQuote then sWrite [chBackslash, chQuote] st
  else if c = chBackslash then sWrite [chBackslash, chBackslash] st
  else if c = 8 then sWrite [chBackslash, 98] st
  else if c = 12 then sWrite [chBackslash, 102] st
  else if c = 10 then sWrite [chBackslash, 110] st
  else if c = 13 then sWrite [chBackslash, 114] st
  else if c = 9 then sWrite [chBackslash, 116] st
  else sWrite [c] st

/-- `Serializer::append_str` (the default loop over `append_char`). -/
def sAppendStr : List Ch → SState → SState
  | [], st => st
  | c :: cs2, st => sAppendStr cs2 (sAppendChar c st)

/-- `TextSerializer::push_entry` (also `push_field`). -/
def sPushEntry (key : List Ch) (st : SState) : SState :=
  sCloseStr (sAppendStr key (sAddEntry st))

/-- `TextSerializer::close_object` (also `close_struct`); `depth -= 1`
happens first, then the indentation (if any) uses the new depth. -/
def sCloseObject (st : SState) : SState :=
  let st := { st with depth := st.depth - 1 }
  if st.at_first then sWrite (str "\x7d") { st with at_first := false }
  else
    match st.indent with
    | some ind => sWrite (str "\x7d") (sWriteIndents ind st.depth (sWrite [10] st))
    | none => sWrite (str " \x7d") st

/-- `Outliner::supports_null` for the TextSerializer. -/
def supports_null_ser : Bool := true

/-- `Outliner::supports_null` for the TextDeserializer. -/
def supports_null_deser : Bool := true

/-- The `Serialize` impl for `Option<T>` (`src/core/src/serialize.rs`):
null niche when `!T::NULLABLE && supports_null()`, otherwise the
`{ has_value, value }` struct. `tNull` is `T::NULLABLE`. -/
def serializeOption {t : Type} (tNull : Bool) (serT : t → SState → SState)
    (o : Option t) (st : SState) : SState :=
  if !tNull && supports_null_ser then
    match o with
    | some inner => serT inner st
    | none => sPopNull st
  else
    let st := sOpenObject st
    let st := sPushEntry (str "has_value") st
    match o with
    | some inner =>
      let st := sPutBool true st
      let st := sPushEntry (str "value") st
      let st := serT inner st
      sCloseObject st
    | none =>
      let st := sPutBool false st
      sCloseObject st

/-- The fresh serializer of `to_writer_using`
(`TextSerializer::new` with the default configuration: no indent). -/
def newSState : SState :=
  ⟨[], none, 0, false, false⟩

/-- `to_str`: serialize into an empty string with the default configuration. -/
def to_str {t : Type} (serT : t → SState → SState) (v : t) : List Ch :=
  (serT v newSState).out

/-- The `Deserialize` impl for `bool` (`value.get_bool()`). -/
def deBool : M Bool := getBool

/-- The `Deserialize` impl for `Option<T>` (`src/core/src/deserialize.rs`):
`check_null` niche when `!T::NULLABLE && supports_null()`, otherwise the
`{ has_value, value }` struct. -/
def deserializeOption {t : Type} (tNull : Bool) (deT : M t) (fuel : Nat) :
    M (Option t) :=
  if !tNull && supports_null_deser then do
    let isNull ← checkNull
    if isNull then pure none
    else do
      let v ← deT
      pure (some v)
  else do
    openStructD fuel
    pushField (str "has_value") fuel
    let hv ← getBool
    if hv then do
      pushField (str "value") fuel
      let v ← deT
      closeStruct fuel
      pure (some v)
    else do
      closeStruct fuel
      pure none

/-- Applying a bound machine computation steps through the first computation. -/
theorem bindM_apply {a b : Type} (x : M a) (f : a → M b) (m : Machine) :
    (x >>= f) m =
      match x m with
      | .ok v m2 => f v m2
      | .err e => .err e
      | .fatal s => .fatal s
      | .diverge => .diverge := rfl

theorem pureM_apply {a : Type} (v : a) (m : Machine) : (pure v : M a) m = .ok v m := rfl

theorem mFatal_apply {a : Type} (s : String) (m : Machine) :
    (mFatal (a := a) s) m = .fatal s := rfl

theorem mErr_apply {a : Type} (p : Pos) (e : ErrMsg) (m : Machine) :
    (mErr (a := a) p e) m = .err ⟨p, e⟩ := rfl

theorem mDiverge_apply {a : Type} (m : Machine) : (mDiverge (a := a)) m = .diverge := rfl

theorem mGetState_apply (m : Machine) : mGetState m = .ok m.state m := by
  cases m
  rfl

theorem mSetState_apply (s : DState) (m : Machine) :
    mSetState s m = .ok () { m with state := s } := by
  cases m
  rfl

theorem mReadPos_apply (m : Machine) : mReadPos m = .ok m.reader m := by
  cases m
  rfl

theorem mGetErrorPos_apply (m : Machine) : mGetErrorPos m = .ok m.errorPos m := by
  cases m
  rfl

theorem mSetErrorPos_apply (p : Pos) (m : Machine) :
    mSetErrorPos p m = .ok () { m with errorPos := p } := by
  cases m
  rfl

theorem mGetAC_apply (m : Machine) : mGetAC m = .ok m.allowComments m := by
  cases m
  rfl

theorem mItems_apply (m : Machine) : mItems m = .ok m.lookbackItems m := by
  cases m
  rfl

theorem mItemsLen_apply (m : Machine) : mItemsLen m = .ok m.lookbackItems.length m := by
  cases m
  rfl

theorem mGetItem_apply (i : Nat) (m : Machine) :
    mGetItem i m =
      match m.lookbackItems.get? i with
      | some it => .ok it m
      | none => .fatal "lookback item index out of bounds" := by
  cases m
  rfl

theorem mSetItem_apply (i : Nat) (it : LookbackItem) (m : Machine) :
    mSetItem i it m = .ok () { m with lookbackItems := m.lookbackItems.set i it } := by
  cases m
  rfl

theorem mGetData_apply (m : Machine) : mGetData m = .ok m.lookbackData m := by
  cases m
  rfl

theorem mSetData_apply (d : List Byte) (m : Machine) :
    mSetData d m = .ok () { m with lookbackData := d } := by
  cases m
  rfl

theorem mDataLen_apply (m : Machine) : mDataLen m = .ok m.lookbackData.length m := by
  cases m
  rfl

theorem mStack_apply (m : Machine) : mStack m = .ok m.stackItems m := by
  cases m
  rfl

theorem mGetKeys_apply (m : Machine) : mGetKeys m = .ok m.lookbackKeys m := by
  cases m
  rfl

theorem mSetKeys_apply (ks : List LookbackKey) (m : Machine) :
    mSetKeys ks m = .ok () { m with lookbackKeys := ks } := by
  cases m
  rfl

theorem mPushStack_apply (si : StackItem) (m : Machine) :
    mPushStack si m = .ok () { m with stackItems := si :: m.stackItems } := by
  cases m
  rfl

theorem mStackLastUnwrap_apply (m : Machine) :
    mStackLastUnwrap m =
      match m.stackItems with
      | si :: _ => .ok si m
      | [] => .fatal "called unwrap on a None value" := by
  cases m
  rfl

theorem mStackLastExpect_apply (m : Machine) :
    mStackLastExpect m =
      match m.stackItems with
      | si :: _ => .ok si m
      | [] => .fatal "top of the deserialization stack is not an opened collection" := by
  cases m
  rfl

theorem mSetStackLast_apply (si : StackItem) (m : Machine) :
    mSetStackLast si m =
      match m.stackItems with
      | _ :: rest => .ok () { m with stackItems := si :: rest }
      | [] => .fatal "called unwrap on a None value" := by
  cases m
  rfl

theorem mPopStackUnwrap_apply (m : Machine) :
    mPopStackUnwrap m =
      match m.stackItems with
      | si :: rest => .ok si { m with stackItems := rest }
      | [] => .fatal "called unwrap on a None value" := by
  cases m
  rfl

theorem mTopDepth_apply (m : Machine) :
    mTopDepth m =
      .ok (if m.stackItems.length = 0 then none else some m.stackItems.length) m := by
  cases m
  rfl

theorem mTopDepthUnwrap_apply (m : Machine) :
    mTopDepthUnwrap m =
      if m.stackItems.length = 0 then .fatal "called unwrap on a None value"
      else .ok m.stackItems.length m := by
  cases m
  rfl

theorem mAppendKey_apply (k : LookbackKey) (m : Machine) :
    mAppendKey k m = .ok () { m with lookbackKeys := m.lookbackKeys ++ [k] } := by
  cases m
  rfl

theorem mLiftR_apply {a : Type} (r : R a) (m : Machine) :
    mLiftR r m =
      match r m.reader with
      | .ok v rest => .ok v { m with reader := rest }
      | .err e => .err e
      | .fatal msg => .fatal msg
      | .diverge => .diverge := by
  cases m
  rfl

theorem lt_length_of_get?_eq_some {α : Type} {l : List α} {i : Nat} {a : α}
    (h : l[i]? = some a) : i < l.length := by
  by_contra hnlt
  rw [List.getElem?_eq_none (Nat.le_of_not_lt hnlt)] at h
  cases h

/-- C2: every lookback-arena item is delivered at most once: a successful
`take_value` returns exactly the stored value descriptor and clears it, and a second
take of the same item is a fatal assertion, never a wrong value; and when `next_entry`
pops a fully-consumed object from the stack, no unread (value-bearing) lookback item
of that object remains reachable from its stack item's first-child chain. -/
theorem lookback_items_delivered_once :
    (∀ (m : Machine) (i : Nat) (t : Taken) (m2 : Machine),
        takeValue i m = .ok t m2 →
        (∃ it, m.lookbackItems.get? i = some it ∧ it.value = some t.value ∧
          m2.lookbackItems = m.lookbackItems.set i { it with value := none }) ∧
        takeValue i m2 = .fatal "value already read") ∧
    (∀ (fuel : Nat) (m m2 : Machine),
        nextEntry fuel m = .ok false m2 →
        ∃ si rest, m.stackItems = si :: rest ∧
          firstUnreadChild m.lookbackItems fuel si.firstChildIndex = some none) := by
  constructor
  · intro m i t m2 h
    obtain ⟨ac, rd, st, li, lk, ld, s, ep⟩ := m
    simp only [takeValue, List.get?_eq_getElem?] at h
    cases hget : li[i]? with
    | none => simp [hget] at h
    | some it =>
      simp only [hget] at h
      cases hval : it.value with
      | none => simp [hval] at h
      | some v =>
        simp only [hval] at h
        split at h
        · cases h
          refine ⟨⟨it, ?_, by rw [hval], rfl⟩, ?_⟩
          · rw [List.get?_eq_getElem?]
            exact hget
          · have hlt : i < li.length := lt_length_of_get?_eq_some hget
            have hget2 : (li.set i { it with value := none })[i]? =
                some { it with value := none } :=
              List.getElem?_set_eq_of_lt _ hlt
            simp only [takeValue, List.get?_eq_getElem?, hget2]
        · cases h
  · intro fuel m m2 h
    simp only [nextEntry, bindM_apply, mGetState_apply] at h
    cases hst : m.state with
    | collection atStart sd =>
      rw [hst] at h
      simp only [bindM_apply, pureM_apply, mFatal_apply, mDiverge_apply,
        mTopDepthUnwrap_apply, mStackLastUnwrap_apply, mAssertObject, mItems_apply,
        mGetItem_apply, mGetKeys_apply, mSetKeys_apply, mSetItem_apply,
        mSetState_apply, mSetStackLast_apply, mSetErrorPos_apply,
        mPopStackUnwrap_apply, mGetAC_apply, mLiftR_apply] at h
      cases hstack : m.stackItems with
      | nil =>
        rw [hstack] at h
        simp at h
      | cons si rest =>
        rw [hstack] at h
        simp only [List.length_cons, Nat.succ_ne_zero, if_false, hstack] at h
        cases hct : si.collectionType with
        | array =>
          simp only [hct, mFatal_apply] at h
          cases h
        | object =>
          simp only [hct, pureM_apply] at h
          cases hfu : firstUnreadChild m.lookbackItems fuel si.firstChildIndex with
          | none =>
            simp only [hfu, mDiverge_apply] at h
            cases h
          | some fu =>
            simp only [hfu] at h
            cases fu with
            | some idx =>
              simp only [bindM_apply, pureM_apply, mFatal_apply, mSetStackLast_apply,
                mGetItem_apply, mGetKeys_apply, mSetKeys_apply, mSetItem_apply,
                mSetState_apply, hstack] at h
              cases hgi : m.lookbackItems.get? idx with
              | none => simp only [hgi] at h; cases h
              | some item =>
                simp only [hgi] at h
                cases hrk : removeKeyAt (rest.length + 1) idx m.lookbackKeys with
                | none => simp only [hrk] at h; cases h
                | some keys2 => simp only [hrk] at h; cases h
            | none =>
              refine ⟨si, rest, rfl, hfu⟩
    | streamingValue => rw [hst] at h; cases h
    | lookbackValue a b => rw [hst] at h; cases h
    | nullValue a b c => rw [hst] at h; cases h
    | streamingString a => rw [hst] at h; cases h
    | lookbackString a b c d => rw [hst] at h; cases h


/-- Witness for C2: a one-item arena machine where the item is taken once and a second
take is the fatal assertion, and a machine holding one spent object whose pop leaves
no unread children. -/
theorem lookback_items_delivered_once_witness :
    takeValue 0 (⟨false, [], [],
        [⟨[], 0, USIZE_MAX, 0, none⟩], [], [], .streamingValue, []⟩ : Machine) =
      .fatal "value already read" ∧
    (∃ si rest, ([⟨[], USIZE_MAX, CollectionType.object⟩] : List StackItem) =
        si :: rest ∧ firstUnreadChild [] 1 si.firstChildIndex = some none) :=
  ⟨(lookback_items_delivered_once.1
      ⟨false, [], [], [⟨[], 0, USIZE_MAX, 0, some .null⟩], [], [], .streamingValue, []⟩
      0 ⟨[], .null, [], 0, 0⟩
      ⟨false, [], [], [⟨[], 0, USIZE_MAX, 0, none⟩], [], [], .streamingValue, []⟩
      rfl).2,
    lookback_items_delivered_once.2 1
      ⟨false, [], [⟨[], USIZE_MAX, .object⟩], [], [], [], .collection false none, []⟩
      ⟨false, [], [], [], [], [], .collection false none, []⟩ rfl⟩

/-- Lists permuting a two-element list are exactly its two orderings. -/
theorem perm_pair {α : Type} {p : List α} {a b : α} (h : p.Perm [a, b]) :
    p = [a, b] ∨ p = [b, a] := by
  have hlen := h.length_eq
  cases p with
  | nil => simp at hlen
  | cons u rest =>
    cases rest with
    | nil => simp at hlen
    | cons v rest2 =>
      cases rest2 with
      | cons w r3 => simp at hlen
      | nil =>
        have hu : u = a ∨ u = b := by
          simpa using h.mem_iff.mp (List.mem_cons_self u [v])
        rcases hu with hu | hu
        · subst hu
          have hv : v = b := by
            simpa using List.perm_singleton.mp ((List.perm_cons u).mp h)
          subst hv
          exact Or.inl rfl
        · subst hu
          have h2 : List.Perm (u :: [v]) (u :: [a]) := h.trans (List.Perm.swap u a [])
          have hv : v = a := by
            simpa using List.perm_singleton.mp ((List.perm_cons u).mp h2)
          subst hv
          exact Or.inr rfl

/-- Lists permuting a three-element list are exactly its six orderings. -/
theorem perm_triple {α : Type} {p : List α} {a b c : α} (h : p.Perm [a, b, c]) :
    p = [a, b, c] ∨ p = [a, c, b] ∨ p = [b, a, c] ∨ p = [b, c, a] ∨
      p = [c, a, b] ∨ p = [c, b, a] := by
  have hlen := h.length_eq
  cases p with
  | nil => simp at hlen
  | cons u rest =>
    have hu : u = a ∨ u = b ∨ u = c := by
      simpa using h.mem_iff.mp (List.mem_cons_self u rest)
    rcases hu with hu | hu | hu
    · subst hu
      have h2 := (List.perm_cons u).mp h
      rcases perm_pair h2 with h3 | h3 <;> rw [h3] <;> simp
    · subst hu
      have hswap : List.Perm [a, u, c] [u, a, c] := List.Perm.swap u a [c]
      have h2 := (List.perm_cons u).mp (h.trans hswap)
      rcases perm_pair h2 with h3 | h3 <;> rw [h3] <;> simp
    · subst hu
      have hswap : List.Perm [a, b, u] [u, a, b] :=
        ((List.Perm.swap u b []).cons a).trans (List.Perm.swap u a [b])
      have h2 := (List.perm_cons u).mp (h.trans hswap)
      rcases perm_pair h2 with h3 | h3 <;> rw [h3] <;> simp

/-- C1: for every JSON object whose entries are a permutation of the fixed key set
`a`, `b`, `c`, deserializing through the TextDeserializer with the fixed declared
field order `a`, `b`, `c` (a fixed sequence of push_field calls followed by
close_struct) yields the same typed result; across the six permutations each field is
served live from the stream or from the lookback arena in every combination the
machine can produce. -/
theorem struct_decode_order_independent :
    ∀ p, p.Perm entriesABC →
      runDecode (progABC 300) 300 (renderObj p) = .ok (1, true, (str "hi")) := by
  intro p hp
  rcases perm_triple hp with h | h | h | h | h | h <;> rw [h] <;> rfl

/-- A rotated three-element list is a permutation of the original. -/
theorem perm_rot {α : Type} (a b c : α) : List.Perm [c, a, b] [a, b, c] :=
  (((List.Perm.swap c b []).cons a).trans (List.Perm.swap c a [b])).symm

/-- Witness for C1 at a concrete permutation (input order `c`, `a`, `b`, all three
entries out of declared position). -/
theorem struct_decode_order_independent_witness :
    runDecode (progABC 300) 300
      (renderObj [(str "c", renderStr (str "hi")), (str "a", (str "1")),
        (str "b", renderObj [(str "k", (str "true"))])]) =
      .ok (1, true, (str "hi")) :=
  struct_decode_order_independent _
    (perm_rot (str "a", (str "1")) (str "b", renderObj [(str "k", (str "true"))])
      (str "c", renderStr (str "hi")))

/-- C3: deserializing the complete input `12E3` as an unsigned 32-bit integer yields
12000; `1000E-3` yields 1; and the fractional literal `15.7` fails with a recoverable
numeric-overflow data error (no success, no panic) for both unsigned and signed
32-bit integer targets. -/
theorem json_integer_exactness :
    fromStrU32 300 (str "12E3") = .ok 12000 ∧
    fromStrU32 300 (str "1000E-3") = .ok 1 ∧
    fromStrU32 300 (str "15.7") = .err ⟨(str "15.7"), .numberOverflow⟩ ∧
    fromStrI32 300 (str "15.7") = .err ⟨(str "15.7"), .numberOverflow⟩ :=
  ⟨rfl, rfl, rfl, rfl⟩

/-- C5: deserializing the empty object into a struct with one non-optional declared
field `name` returns a missing-key data error naming that field (tagged to the
object's opening brace), while deserializing an object with an extra entry before
`name` succeeds, the unknown key being skipped by the implicit close. -/
theorem missing_vs_extra_fields :
    runDecode (progName 300) 300 (renderObj []) =
      .err ⟨renderObj [], .missingKey (str "name")⟩ ∧
    runDecode (progName 300) 300
      (renderObj [(str "extra", (str "1")), (str "name", renderStr (str "x"))]) =
      .ok (str "x") :=
  ⟨rfl, rfl⟩

/-- C6: the complete inputs `01234` and `-01234`, deserialized via `from_str` as
numbers, fail with a recoverable data error (the number parser stops after the leading
zero and `close` rejects the trailing digits), for both unsigned and signed 32-bit
integer targets. -/
theorem leading_zero_rejected :
    fromStrU32 300 (str "01234") = .err ⟨(str "1234"), .unexpectedChar⟩ ∧
    fromStrU32 300 (str "-01234") = .err ⟨(str "1234"), .unexpectedChar⟩ ∧
    fromStrI32 300 (str "01234") = .err ⟨(str "1234"), .unexpectedChar⟩ ∧
    fromStrI32 300 (str "-01234") = .err ⟨(str "1234"), .unexpectedChar⟩ :=
  ⟨rfl, rfl, rfl, rfl⟩

/-- C9: calling `next_item`, `next_entry`, `close_struct` or `close_list` on a
deserializer whose stack has no open collection on top (the collection was already
popped) is a fatal assertion — a panic — and never a recoverable data error,
whatever the deserializer state, reader content and arena contents. -/
theorem close_exhausted_collection_fatal (fuel : Nat) (m : Machine)
    (hstack : m.stackItems = []) :
    (nextItem fuel m).isFatal = true ∧ (nextItem fuel m).isErr = false ∧
    (nextEntry fuel m).isFatal = true ∧ (nextEntry fuel m).isErr = false ∧
    (closeStruct fuel m).isFatal = true ∧ (closeStruct fuel m).isErr = false ∧
    (closeList fuel m).isFatal = true ∧ (closeList fuel m).isErr = false := by
  obtain ⟨ac, rd, st, li, lk, ld, s, ep⟩ := m
  cases hstack
  cases s <;> exact ⟨rfl, rfl, rfl, rfl, rfl, rfl, rfl, rfl⟩

/-- Witness for C9: the machine state reached after fully reading and popping the
root-level empty array of the input consisting of that array alone. -/
theorem close_exhausted_collection_fatal_witness :
    (⟨false, [], [], [], [], [], .collection false none, []⟩ : Machine).stackItems
        = [] ∧
    (nextItem 300 ⟨false, [], [], [], [], [], .collection false none, []⟩).isFatal
        = true :=
  ⟨rfl, (close_exhausted_collection_fatal 300 _ rfl).1⟩

/-! ### Lemmas about cmp_bytes -/

theorem cmp_bytes_refl (a : List Nat) : cmp_bytes a a = .eq := by
  induction a with
  | nil => rfl
  | cons x xs ih => simp [cmp_bytes, ih]

theorem cmp_bytes_eq_iff {a b : List Nat} : cmp_bytes a b = .eq ↔ a = b := by
  induction a generalizing b with
  | nil => cases b <;> simp [cmp_bytes]
  | cons x xs ih =>
    cases b with
    | nil => simp [cmp_bytes]
    | cons y ys =>
      by_cases hxy : x < y
      · simp [cmp_bytes, hxy]
        intro h; omega
      · by_cases hyx : y < x
        · simp [cmp_bytes, hxy, hyx]
          intro h; omega
        · have hxey : x = y := by omega
          subst hxey
          simp [cmp_bytes, ih]

theorem cmp_bytes_lt_iff_gt {a b : List Nat} :
    cmp_bytes a b = .lt ↔ cmp_bytes b a = .gt := by
  induction a generalizing b with
  | nil => cases b <;> simp [cmp_bytes]
  | cons x xs ih =>
    cases b with
    | nil => simp [cmp_bytes]
    | cons y ys =>
      by_cases hxy : x < y
      · have : ¬ y < x := by omega
        simp [cmp_bytes, hxy, this]
      · by_cases hyx : y < x
        · simp [cmp_bytes, hxy, hyx]
        · simp [cmp_bytes, hxy, hyx, ih]

theorem cmp_bytes_lt_trans {a b c : List Nat}
    (hab : cmp_bytes a b = .lt) (hbc : cmp_bytes b c = .lt) :
    cmp_bytes a c = .lt := by
  induction a generalizing b c with
  | nil =>
    cases c with
    | nil =>
      cases b with
      | nil => exact hbc
      | cons y ys => simp [cmp_bytes] at hbc
    | cons z zs => simp [cmp_bytes]
  | cons x xs ih =>
    cases b with
    | nil => simp [cmp_bytes] at hab
    | cons y ys =>
      cases c with
      | nil => simp [cmp_bytes] at hbc
      | cons z zs =>
        simp only [cmp_bytes] at hab hbc ⊢
        by_cases hxy : x < y
        · by_cases hyz : y < z
          · have : x < z := by omega
            simp [this]
          · by_cases hzy : z < y
            · simp [hyz, hzy] at hbc
            · have : y = z := by omega
              subst this
              simp [hxy]
        · by_cases hyx : y < x
          · simp [hxy, hyx] at hab
          · have hxey : x = y := by omega
            subst hxey
            simp only [hxy, if_neg, lt_irrefl, if_false] at hab
            by_cases hyz : x < z
            · simp [hyz]
            · by_cases hzy : z < x
              · simp [hyz, hzy] at hbc
              · have : x = z := by omega
                subst this
                simp only [lt_irrefl, if_false] at hbc ⊢
                exact ih hab hbc

theorem cmp_bytes_append_left (w a b : List Nat) :
    cmp_bytes (w ++ a) (w ++ b) = cmp_bytes a b := by
  induction w with
  | nil => rfl
  | cons x xs ih => simp [cmp_bytes, ih]

theorem cmp_bytes_take {a b : List Nat} (n : Nat) (h : cmp_bytes a b = .lt) :
    cmp_bytes (a.take n) (b.take n) = .lt ∨ a.take n = b.take n := by
  induction a generalizing b n with
  | nil =>
    cases b with
    | nil => simp [cmp_bytes] at h
    | cons y ys =>
      cases n with
      | zero => right; rfl
      | succ m => left; simp [cmp_bytes]
  | cons x xs ih =>
    cases b with
    | nil => simp [cmp_bytes] at h
    | cons y ys =>
      cases n with
      | zero => right; rfl
      | succ m =>
        simp only [cmp_bytes] at h
        by_cases hxy : x < y
        · left; simp [List.take, cmp_bytes, hxy]
        · by_cases hyx : y < x
          · simp [hxy, hyx] at h
          · have : x = y := by omega
            subst this
            simp only [hxy, if_neg, lt_irrefl, if_false] at h
            rcases ih m h with h2 | h2
            · left; simp [List.take, cmp_bytes, h2]
            · right; simp [List.take, h2]

/-! ### Lemmas about pfx / truncate_slice -/

theorem pfx_iff {w k : List Nat} : pfx w k = true ↔ ∃ t, k = w ++ t := by
  constructor
  · intro h
    simp only [pfx, beq_iff_eq] at h
    refine ⟨k.drop w.length, ?_⟩
    conv_lhs => rw [← List.take_append_drop w.length k, h]
  · rintro ⟨t, rfl⟩
    simp [pfx, List.take_left]

theorem pfx_length_le {w k : List Nat} (h : pfx w k = true) : w.length ≤ k.length := by
  rcases pfx_iff.mp h with ⟨t, rfl⟩
  simp

theorem pfx_self (s : List Nat) : pfx s s = true := by
  simp [pfx]

theorem pfx_nil (k : List Nat) : pfx [] k = true := by
  simp [pfx]

theorem pfx_of_pfx_append {w d k : List Nat} (h : pfx (w ++ d) k = true) :
    pfx w k = true := by
  rcases pfx_iff.mp h with ⟨t, rfl⟩
  exact pfx_iff.mpr ⟨d ++ t, by simp⟩

/-- A strict prefix compares strictly less. -/
theorem cmp_bytes_lt_of_strict_pfx {w k : List Nat} (h : pfx w k = true)
    (hne : w ≠ k) : cmp_bytes w k = .lt := by
  rcases pfx_iff.mp h with ⟨t, rfl⟩
  cases t with
  | nil => simp at hne
  | cons x xs =>
    have : cmp_bytes (w ++ []) (w ++ (x :: xs)) = cmp_bytes [] (x :: xs) :=
      cmp_bytes_append_left w [] (x :: xs)
    simpa [cmp_bytes] using this

theorem truncate_slice_eq (data : List Nat) (start len : Nat) :
    truncate_slice data start len = (data.drop start).take len := by
  unfold truncate_slice
  by_cases h : (data.drop start).length > len
  · simp [h]
  · simp only [h, if_false]
    exact (List.take_of_length_le (by omega)).symm

/-- For a key with prefix `w`, matching the next `d` bytes is exactly
having `w ++ d` as a prefix. -/
theorem trunc_match_iff {w d k : List Nat} (h : pfx w k = true) :
    cmp_bytes (truncate_slice k w.length d.length) d = .eq ↔ pfx (w ++ d) k = true := by
  rcases pfx_iff.mp h with ⟨t, rfl⟩
  rw [truncate_slice_eq, cmp_bytes_eq_iff]
  rw [List.drop_left]
  constructor
  · intro ht
    refine pfx_iff.mpr ⟨t.drop d.length, ?_⟩
    rw [List.append_assoc]
    congr 1
    conv_lhs => rw [← List.take_append_drop d.length t, ht]
  · intro hp
    rcases pfx_iff.mp hp with ⟨u, hu⟩
    rw [List.append_assoc] at hu
    have : t = d ++ u := List.append_cancel_left hu
    subst this
    simp [List.take_left]

/-! ### The comparison at an index, and monotonicity over a sorted block -/

theorem ordRank_le_two (o : Ordering) : ordRank o ≤ 2 := by
  cases o <;> simp [ordRank]

theorem rank_le_zero {o : Ordering} (h : ordRank o ≤ 0) : o = .lt := by
  cases o <;> simp [ordRank] at h ⊢

theorem rank_ge_two {o : Ordering} (h : 2 ≤ ordRank o) : o = .gt := by
  cases o <;> simp [ordRank] at h ⊢

theorem rank_eq_one {o : Ordering} (h1 : 1 ≤ ordRank o) (h2 : ordRank o ≤ 1) : o = .eq := by
  cases o <;> simp [ordRank] at h1 h2 ⊢

theorem candCmpO_at (cs : List (List Nat × Nat)) (il : Nat) (d : List Nat) (i : Nat)
    (h : i < cs.length) :
    candCmpO cs il d i = cmp_bytes (truncate_slice (cs.get ⟨i, h⟩).1 il d.length) d := by
  simp [candCmpO, List.getElem?_eq_getElem h]

/-- Over a strictly sorted block of candidates all sharing the written
prefix `w`, the comparison against the next chunk is monotone. -/
theorem candCmpO_mono (cs : List (List Nat × Nat)) (w d : List Nat)
    (hsorted : List.Pairwise (fun a b => cmp_bytes a.1 b.1 = .lt) cs)
    (hpfx : ∀ e ∈ cs, pfx w e.1 = true) :
    ∀ i j, i ≤ j → j < cs.length →
      ordRank (candCmpO cs w.length d i) ≤ ordRank (candCmpO cs w.length d j) := by
  intro i j hij hj
  rcases Nat.eq_or_lt_of_le hij with rfl | hlt
  · exact le_refl _
  have hi : i < cs.length := lt_trans hlt hj
  rw [candCmpO_at cs w.length d i hi, candCmpO_at cs w.length d j hj]
  have hcmp : cmp_bytes (cs.get ⟨i, hi⟩).1 (cs.get ⟨j, hj⟩).1 = .lt := by
    have := List.pairwise_iff_getElem.mp hsorted i j hi hj hlt
    simpa using this
  obtain ⟨t1, ht1⟩ := pfx_iff.mp (hpfx _ (List.get_mem _ _ _))
  obtain ⟨t2, ht2⟩ := pfx_iff.mp (hpfx _ (List.get_mem _ _ _))
  rw [ht1, ht2] at hcmp ⊢
  rw [truncate_slice_eq, truncate_slice_eq, List.drop_left, List.drop_left]
  rw [cmp_bytes_append_left] at hcmp
  rcases cmp_bytes_take d.length hcmp with h2 | h2
  · cases hbd : cmp_bytes (t2.take d.length) d with
    | lt =>
      have : cmp_bytes (t1.take d.length) d = .lt := cmp_bytes_lt_trans h2 hbd
      simp [this, hbd]
    | eq =>
      have hb : t2.take d.length = d := cmp_bytes_eq_iff.mp hbd
      have hlt2 : cmp_bytes (t1.take d.length) d = .lt := by
        nth_rewrite 2 [← hb]
        exact h2
      simp [hlt2, hbd, ordRank]
    | gt => exact le_trans (ordRank_le_two _) (by simp [ordRank])
  · rw [h2]

/-! ### Specifications of the three binary-search loops -/

theorem wbLower_spec (cs : List (List Nat × Nat)) (il : Nat) (d : List Nat)
    (mono : ∀ i j, i ≤ j → j < cs.length →
      ordRank (candCmpO cs il d i) ≤ ordRank (candCmpO cs il d j)) :
    ∀ f lo lo_hi, lo ≤ lo_hi → lo_hi < cs.length → lo_hi - lo < f →
      candCmpO cs il d lo_hi = .eq →
      (∀ i, i < lo → candCmpO cs il d i = .lt) →
      ∃ r, wbLower cs il d f lo lo_hi = some r ∧ lo ≤ r ∧ r ≤ lo_hi ∧
        (∀ i, i < r → candCmpO cs il d i = .lt) ∧ candCmpO cs il d r = .eq := by
  intro f
  induction f with
  | zero => intro lo lo_hi _ _ hf; omega
  | succ f ih =>
    intro lo lo_hi hle hlen hf heq hinv
    by_cases hlh : lo < lo_hi
    · have hmid : lo + (lo_hi - lo) / 2 < cs.length := by omega
      have hsome : cs[lo + (lo_hi - lo) / 2]? = some (cs.get ⟨lo + (lo_hi - lo) / 2, hmid⟩) :=
        List.getElem?_eq_getElem hmid
      have hcand := candCmpO_at cs il d (lo + (lo_hi - lo) / 2) hmid
      cases hQ : candCmpO cs il d (lo + (lo_hi - lo) / 2) with
      | lt =>
        obtain ⟨r, hrun, hr1, hr2, hr3, hr4⟩ :=
          ih (lo + (lo_hi - lo) / 2 + 1) lo_hi (by omega) hlen (by omega) heq
            (fun i hi => by
              apply rank_le_zero
              calc ordRank (candCmpO cs il d i)
                  ≤ ordRank (candCmpO cs il d (lo + (lo_hi - lo) / 2)) :=
                    mono i _ (by omega) hmid
                _ ≤ 0 := by rw [hQ]; simp [ordRank])
        refine ⟨r, ?_, by omega, hr2, hr3, hr4⟩
        rw [hcand] at hQ
        simp only [wbLower, if_pos hlh, hsome, hQ]
        exact hrun
      | gt =>
        exfalso
        have := mono (lo + (lo_hi - lo) / 2) lo_hi (by omega) hlen
        rw [hQ, heq] at this
        simp [ordRank] at this
      | eq =>
        obtain ⟨r, hrun, hr1, hr2, hr3, hr4⟩ :=
          ih lo (lo + (lo_hi - lo) / 2) (by omega) (by omega) (by omega) hQ hinv
        refine ⟨r, ?_, hr1, by omega, hr3, hr4⟩
        rw [hcand] at hQ
        simp only [wbLower, if_pos hlh, hsome, hQ]
        exact hrun
    · have : lo = lo_hi := by omega
      subst this
      refine ⟨lo, ?_, le_refl _, le_refl _, hinv, heq⟩
      simp only [wbLower, if_neg hlh]

theorem wbUpper_spec (cs : List (List Nat × Nat)) (il : Nat) (d : List Nat)
    (mono : ∀ i j, i ≤ j → j < cs.length →
      ordRank (candCmpO cs il d i) ≤ ordRank (candCmpO cs il d j)) :
    ∀ f hi_lo hi, 0 < hi_lo → hi_lo ≤ hi → hi ≤ cs.length → hi - hi_lo < f →
      candCmpO cs il d (hi_lo - 1) = .eq →
      (∀ i, hi ≤ i → i < cs.length → candCmpO cs il d i = .gt) →
      ∃ r, wbUpper cs il d f hi_lo hi = some r ∧ hi_lo ≤ r ∧ r ≤ hi ∧
        (∀ i, r ≤ i → i < cs.length → candCmpO cs il d i = .gt) ∧
        candCmpO cs il d (r - 1) = .eq := by
  intro f
  induction f with
  | zero => intro hi_lo hi _ _ _ hf; omega
  | succ f ih =>
    intro hi_lo hi hpos hle hlen hf heq hinv
    by_cases hlh : hi_lo < hi
    · have hmid : hi_lo + (hi - hi_lo) / 2 < cs.length := by omega
      have hsome : cs[hi_lo + (hi - hi_lo) / 2]? = some (cs.get ⟨hi_lo + (hi - hi_lo) / 2, hmid⟩) :=
        List.getElem?_eq_getElem hmid
      have hcand := candCmpO_at cs il d (hi_lo + (hi - hi_lo) / 2) hmid
      cases hQ : candCmpO cs il d (hi_lo + (hi - hi_lo) / 2) with
      | lt =>
        exfalso
        have := mono (hi_lo - 1) (hi_lo + (hi - hi_lo) / 2) (by omega) hmid
        rw [hQ, heq] at this
        simp [ordRank] at this
      | gt =>
        obtain ⟨r, hrun, hr1, hr2, hr3, hr4⟩ :=
          ih hi_lo (hi_lo + (hi - hi_lo) / 2) hpos (by omega) (by omega) (by omega) heq
            (fun i hi1 hi2 => by
              apply rank_ge_two
              calc (2 : Nat) = ordRank (candCmpO cs il d (hi_lo + (hi - hi_lo) / 2)) := by
                    rw [hQ]; simp [ordRank]
                _ ≤ ordRank (candCmpO cs il d i) := mono _ i (by omega) hi2)
        refine ⟨r, ?_, hr1, by omega, hr3, hr4⟩
        rw [hcand] at hQ
        simp only [wbUpper, if_pos hlh, hsome, hQ]
        exact hrun
      | eq =>
        obtain ⟨r, hrun, hr1, hr2, hr3, hr4⟩ :=
          ih (hi_lo + (hi - hi_lo) / 2 + 1) hi (by omega) (by omega) hlen (by omega)
            (by simpa using hQ) hinv
        refine ⟨r, ?_, by omega, hr2, hr3, hr4⟩
        rw [hcand] at hQ
        simp only [wbUpper, if_pos hlh, hsome, hQ]
        exact hrun
    · have : hi_lo = hi := by omega
      subst this
      refine ⟨hi_lo, ?_, le_refl _, le_refl _, hinv, heq⟩
      simp only [wbUpper, if_neg hlh]

theorem wbMain_spec (cs : List (List Nat × Nat)) (il : Nat) (d : List Nat)
    (mono : ∀ i j, i ≤ j → j < cs.length →
      ordRank (candCmpO cs il d i) ≤ ordRank (candCmpO cs il d j)) :
    ∀ f lo hi, lo ≤ hi → hi ≤ cs.length → hi - lo < f →
      (∀ i, i < lo → candCmpO cs il d i = .lt) →
      (∀ i, hi ≤ i → i < cs.length → candCmpO cs il d i = .gt) →
      ∃ r r2, wbMain cs il d f lo hi = some (r, r2) ∧ lo ≤ r ∧ r ≤ r2 ∧ r2 ≤ hi ∧
        (∀ i, i < r → candCmpO cs il d i = .lt) ∧
        (∀ i, r ≤ i → i < r2 → candCmpO cs il d i = .eq) ∧
        (∀ i, r2 ≤ i → i < cs.length → candCmpO cs il d i = .gt) := by
  intro f
  induction f with
  | zero => intro lo hi _ _ hf; omega
  | succ f ih =>
    intro lo hi hle hlen hf hlow hhigh
    by_cases hlh : lo < hi
    · have hmid : lo + (hi - lo) / 2 < cs.length := by omega
      have hsome : cs[lo + (hi - lo) / 2]? = some (cs.get ⟨lo + (hi - lo) / 2, hmid⟩) :=
        List.getElem?_eq_getElem hmid
      have hcand := candCmpO_at cs il d (lo + (hi - lo) / 2) hmid
      cases hQ : candCmpO cs il d (lo + (hi - lo) / 2) with
      | lt =>
        obtain ⟨r, r2, hrun, h1, h2, h3, h4, h5, h6⟩ :=
          ih (lo + (hi - lo) / 2 + 1) hi (by omega) hlen (by omega)
            (fun i hi1 => by
              apply rank_le_zero
              calc ordRank (candCmpO cs il d i)
                  ≤ ordRank (candCmpO cs il d (lo + (hi - lo) / 2)) :=
                    mono i _ (by omega) hmid
                _ ≤ 0 := by rw [hQ]; simp [ordRank])
            hhigh
        refine ⟨r, r2, ?_, by omega, h2, h3, h4, h5, h6⟩
        rw [hcand] at hQ
        simp only [wbMain, if_pos hlh, hsome, hQ]
        exact hrun
      | gt =>
        obtain ⟨r, r2, hrun, h1, h2, h3, h4, h5, h6⟩ :=
          ih lo (lo + (hi - lo) / 2) (by omega) (by omega) (by omega) hlow
            (fun i hi1 hi2 => by
              apply rank_ge_two
              calc (2 : Nat) = ordRank (candCmpO cs il d (lo + (hi - lo) / 2)) := by
                    rw [hQ]; simp [ordRank]
                _ ≤ ordRank (candCmpO cs il d i) := mono _ i (by omega) hi2)
        refine ⟨r, r2, ?_, h1, h2, by omega, h4, h5, h6⟩
        rw [hcand] at hQ
        simp only [wbMain, if_pos hlh, hsome, hQ]
        exact hrun
      | eq =>
        obtain ⟨r, hrunL, hL1, hL2, hL3, hL4⟩ :=
          wbLower_spec cs il d mono f lo (lo + (hi - lo) / 2) (by omega) hmid (by omega) hQ hlow
        obtain ⟨r2, hrunU, hU1, hU2, hU3, hU4⟩ :=
          wbUpper_spec cs il d mono f (lo + (hi - lo) / 2 + 1) hi (by omega) (by omega) hlen
            (by omega) (by simpa using hQ) hhigh
        refine ⟨r, r2, ?_, hL1, by omega, hU2, hL3, ?_, hU3⟩
        · rw [hcand] at hQ
          simp only [wbMain, if_pos hlh, hsome, hQ, hrunL, hrunU]
        · intro i hi1 hi2
          apply rank_eq_one
          · calc (1 : Nat) = ordRank (candCmpO cs il d r) := by rw [hL4]; simp [ordRank]
              _ ≤ ordRank (candCmpO cs il d i) := mono r i hi1 (by omega)
          · calc ordRank (candCmpO cs il d i)
                ≤ ordRank (candCmpO cs il d (r2 - 1)) := mono i (r2 - 1) (by omega) (by omega)
              _ ≤ 1 := by rw [hU4]; simp [ordRank]
    · have : lo = hi := by omega
      subst this
      refine ⟨lo, lo, ?_, le_refl _, le_refl _, le_refl _, hlow, by omega, hhigh⟩
      simp only [wbMain, if_neg hlh]

/-! ### From index classification to a filter characterization -/

theorem slice_eq_filter {α : Type} (cs : List α) (Q : α → Bool) (lo hi : Nat)
    (hlh : lo ≤ hi) (hhl : hi ≤ cs.length)
    (h1 : ∀ i (h : i < cs.length), i < lo → Q (cs.get ⟨i, h⟩) = false)
    (h2 : ∀ i (h : i < cs.length), lo ≤ i → i < hi → Q (cs.get ⟨i, h⟩) = true)
    (h3 : ∀ i (h : i < cs.length), hi ≤ i → Q (cs.get ⟨i, h⟩) = false) :
    cs.filter Q = (cs.drop lo).take (hi - lo) := by
  have hdecomp : cs = cs.take lo ++ ((cs.drop lo).take (hi - lo) ++ cs.drop hi) := by
    have h0 : (cs.drop lo).drop (hi - lo) = cs.drop hi := by
      rw [List.drop_drop]
      congr 1
      omega
    rw [← h0, List.take_append_drop, List.take_append_drop]
  conv_lhs => rw [hdecomp]
  rw [List.filter_append, List.filter_append]
  have e1 : (cs.take lo).filter Q = [] := by
    rw [List.filter_eq_nil_iff]
    intro a ha
    obtain ⟨i, hil, hieq⟩ := List.mem_iff_getElem.mp ha
    have hil2 : i < cs.length := by
      have := hil
      simp [List.length_take] at this
      omega
    have hilo : i < lo := by
      have := hil
      simp [List.length_take] at this
      omega
    rw [List.getElem_take] at hieq
    rw [← hieq]
    simpa using h1 i hil2 hilo
  have e2 : ((cs.drop lo).take (hi - lo)).filter Q = (cs.drop lo).take (hi - lo) := by
    rw [List.filter_eq_self]
    intro a ha
    obtain ⟨j, hjl, hjeq⟩ := List.mem_iff_getElem.mp ha
    have hjlen : lo + j < cs.length := by
      have := hjl
      simp [List.length_take, List.length_drop] at this
      omega
    have hjhi : lo + j < hi := by
      have := hjl
      simp [List.length_take, List.length_drop] at this
      omega
    rw [List.getElem_take, List.getElem_drop] at hjeq
    rw [← hjeq]
    exact h2 (lo + j) hjlen (by omega) hjhi
  have e3 : (cs.drop hi).filter Q = [] := by
    rw [List.filter_eq_nil_iff]
    intro a ha
    obtain ⟨j, hjl, hjeq⟩ := List.mem_iff_getElem.mp ha
    have hjlen : hi + j < cs.length := by
      have := hjl
      simp [List.length_drop] at this
      omega
    rw [List.getElem_drop] at hjeq
    rw [← hjeq]
    simpa using h3 (hi + j) hjlen (by omega)
  rw [e1, e2, e3]
  simp

/-- One `write_bytes` call on the block of candidates with prefix `w`
narrows it to the block with prefix `w ++ d`. -/
theorem write_bytes_spec (cs : List (List Nat × Nat)) (w d : List Nat)
    (hsorted : List.Pairwise (fun a b => cmp_bytes a.1 b.1 = .lt) cs)
    (hpfx : ∀ e ∈ cs, pfx w e.1 = true) :
    write_bytes cs w.length d =
      some (cs.filter (fun e => pfx (w ++ d) e.1), w.length + d.length) := by
  have mono := candCmpO_mono cs w d hsorted hpfx
  obtain ⟨r, r2, hrun, h1, h2, h3, h4, h5, h6⟩ :=
    wbMain_spec cs w.length d mono (cs.length + 1) 0 cs.length (by omega) (le_refl _)
      (by omega) (by omega) (by omega)
  have hQ : ∀ i (h : i < cs.length),
      (pfx (w ++ d) (cs.get ⟨i, h⟩).1 = true) ↔ candCmpO cs w.length d i = .eq := by
    intro i h
    rw [candCmpO_at cs w.length d i h]
    exact (trunc_match_iff (hpfx _ (List.get_mem _ _ _))).symm
  have hfilter : cs.filter (fun e => pfx (w ++ d) e.1) = (cs.drop r).take (r2 - r) := by
    apply slice_eq_filter cs _ r r2 h2 h3
    · intro i h hi
      have := h4 i hi
      rw [Bool.eq_false_iff]
      intro hc
      rw [hQ i h] at hc
      rw [this] at hc
      cases hc
    · intro i h hi1 hi2
      exact (hQ i h).mpr (h5 i hi1 hi2)
    · intro i h hi
      have := h6 i hi h
      rw [Bool.eq_false_iff]
      intro hc
      rw [hQ i h] at hc
      rw [this] at hc
      cases hc
  simp only [write_bytes, hrun]
  rw [if_pos ⟨h2, h3⟩, hfilter]

theorem filter_pfx_append (table : List (List Nat × Nat)) (w d : List Nat) :
    (table.filter (fun e => pfx w e.1)).filter (fun e => pfx (w ++ d) e.1)
      = table.filter (fun e => pfx (w ++ d) e.1) := by
  rw [List.filter_filter]
  apply List.filter_congr
  intro e _
  cases hp : pfx (w ++ d) e.1 with
  | false => simp
  | true => simp [pfx_of_pfx_append hp]

/-- Writing any chunk sequence narrows the candidate block from the
prefix-`w` block to the prefix-`w ++ flatten chunks` block. -/
theorem write_chunks_spec (table : List (List Nat × Nat))
    (hsorted : List.Pairwise (fun a b => cmp_bytes a.1 b.1 = .lt) table) :
    ∀ (chunks : List (List Nat)) (w : List Nat),
      write_chunks (some (table.filter (fun e => pfx w e.1), w.length)) chunks =
        some (table.filter (fun e => pfx (w ++ chunks.flatten) e.1),
          (w ++ chunks.flatten).length) := by
  intro chunks
  induction chunks with
  | nil => intro w; simp [write_chunks]
  | cons d ds ih =>
    intro w
    rw [write_chunks]
    have hsf : List.Pairwise (fun a b => cmp_bytes a.1 b.1 = .lt)
        (table.filter (fun e => pfx w e.1)) :=
      hsorted.sublist (List.filter_sublist _)
    have hpf : ∀ e ∈ table.filter (fun e => pfx w e.1), pfx w e.1 = true := by
      intro e he
      exact (List.mem_filter.mp he).2
    rw [write_bytes_spec (table.filter (fun e => pfx w e.1)) w d hsf hpf]
    rw [filter_pfx_append]
    have : (w ++ d).length = w.length + d.length := by simp
    rw [← this, ih (w ++ d)]
    simp [List.append_assoc]

theorem pfx_eq_of_length {s k : List Nat} (h : pfx s k = true)
    (hl : k.length = s.length) : k = s := by
  rcases pfx_iff.mp h with ⟨t, rfl⟩
  simp at hl
  simp [hl]

theorem assocName_eq_none (rest : List (List Nat × Nat)) (s : List Nat)
    (h : ∀ e ∈ rest, e.1 ≠ s) : assocName rest s = none := by
  induction rest with
  | nil => rfl
  | cons e2 rest2 ih =>
    obtain ⟨k2, v2⟩ := e2
    rw [assocName]
    rw [if_neg (h (k2, v2) (by simp))]
    exact ih (fun e3 he3 => h e3 (by simp [he3]))

/-- `result` on the block of candidates with the full query as prefix is
exactly the associative lookup. -/
theorem result_filter (table : List (List Nat × Nat))
    (hsorted : List.Pairwise (fun a b => cmp_bytes a.1 b.1 = .lt) table)
    (s : List Nat) :
    result (table.filter (fun e => pfx s e.1)) s.length = assocName table s := by
  induction table with
  | nil => rfl
  | cons e rest ih =>
    obtain ⟨hhead, hrest⟩ := List.pairwise_cons.mp hsorted
    obtain ⟨k, v⟩ := e
    by_cases hp : pfx s k = true
    · rw [assocName]
      rw [List.filter_cons_of_pos (by simpa using hp)]
      rw [result]
      by_cases hl : k.length = s.length
      · have : k = s := pfx_eq_of_length hp hl
        subst this
        simp [hl]
      · have hks : ¬ k = s := by
          intro hc; subst hc; exact hl rfl
        rw [if_neg hl, if_neg hks]
        have hnone : ∀ e2 ∈ rest, e2.1 ≠ s := by
          intro e2 he2 hc
          have hlt := hhead e2 he2
          rw [hc] at hlt
          have hslt : cmp_bytes s k = .lt := by
            apply cmp_bytes_lt_of_strict_pfx hp
            intro hc2; rw [hc2] at hks; exact hks rfl
          have := cmp_bytes_lt_trans hlt hslt
          rw [cmp_bytes_refl] at this
          cases this
        exact (assocName_eq_none rest s hnone).symm
    · rw [assocName]
      have hks : ¬ k = s := by
        intro hc; subst hc; exact hp (pfx_self k)
      rw [List.filter_cons_of_neg (by simpa using hp), if_neg hks]
      exact ih hrest

/-- With distinct (sorted) names, `assocName` is membership. -/
theorem assocName_eq_some_iff (table : List (List Nat × Nat))
    (hsorted : List.Pairwise (fun a b => cmp_bytes a.1 b.1 = .lt) table)
    (s : List Nat) (v : Nat) :
    assocName table s = some v ↔ (s, v) ∈ table := by
  induction table with
  | nil => simp [assocName]
  | cons e rest ih =>
    obtain ⟨hhead, hrest⟩ := List.pairwise_cons.mp hsorted
    obtain ⟨k, v2⟩ := e
    rw [assocName]
    by_cases hks : k = s
    · subst hks
      simp only [if_pos rfl, List.mem_cons]
      constructor
      · intro h
        cases h
        left; rfl
      · intro h
        rcases h with h | h
        · cases h; rfl
        · exfalso
          have := hhead _ h
          simp only at this
          rw [cmp_bytes_refl] at this
          cases this
    · rw [if_neg hks, ih hrest]
      simp only [List.mem_cons]
      constructor
      · intro h; right; exact h
      · intro h
        rcases h with h | h
        · cases h
          exact absurd rfl hks
        · exact h

/-- C7: for every NameMap (a table of distinct names, sorted bytewise as
`FixedNameMap::new` guarantees) and every query string split into
arbitrary byte chunks, writing the chunks into a fresh lookup cursor
never panics, and `result` returns exactly the value associated with the
full query when the query is one of the names, and `none` otherwise,
including when the query is a strict prefix of some name. -/
theorem name_map_lookup_correct (table : List (List Nat × Nat))
    (hsorted : List.Pairwise (fun a b => cmp_bytes a.1 b.1 = .lt) table)
    (chunks : List (List Nat)) (s : List Nat) (hs : chunks.flatten = s) :
    ∃ cands, write_chunks (some (table, 0)) chunks = some (cands, s.length) ∧
      result cands s.length = assocName table s ∧
      ∀ v, (assocName table s = some v ↔ (s, v) ∈ table) := by
  subst hs
  have h0 : table.filter (fun e => pfx [] e.1) = table := by
    apply List.filter_eq_self.mpr
    intro e _
    exact pfx_nil e.1
  have hspec := write_chunks_spec table hsorted chunks []
  simp only [List.nil_append, List.length_nil, h0] at hspec
  refine ⟨table.filter (fun e => pfx chunks.flatten e.1), hspec, ?_, ?_⟩
  · exact result_filter table hsorted chunks.flatten
  · exact fun v => assocName_eq_some_iff table hsorted chunks.flatten v

theorem name_map_lookup_correct_witness :
    List.Pairwise (fun (a b : List Nat × Nat) => cmp_bytes a.1 b.1 = Ordering.lt)
        [([98, 97, 116], 9), ([98, 111, 121], 1), ([102, 105], 10),
          ([102, 105, 114, 109], 7)] ∧
      ∃ cands,
        write_chunks (some ([([98, 97, 116], 9), ([98, 111, 121], 1), ([102, 105], 10),
            ([102, 105, 114, 109], 7)], 0)) [[102, 105], [114, 109]] =
          some (cands, 4) ∧
        result cands 4 =
          assocName [([98, 97, 116], 9), ([98, 111, 121], 1), ([102, 105], 10),
            ([102, 105, 114, 109], 7)] [102, 105, 114, 109] ∧
        ∀ v, (assocName [([98, 97, 116], 9), ([98, 111, 121], 1), ([102, 105], 10),
            ([102, 105, 114, 109], 7)] [102, 105, 114, 109] = some v ↔
          ([102, 105, 114, 109], v) ∈ [([98, 97, 116], 9), ([98, 111, 121], 1),
            ([102, 105], 10), ([102, 105, 114, 109], 7)]) :=
  ⟨by decide, name_map_lookup_correct _ (by decide) _ _ rfl⟩

/-- C8: `Option<T>` uses the null niche exactly when `T::NULLABLE` is false
and the format supports null (always true for the JSON text format): then
`None` serializes to the `null` literal and `Some v` to the encoding of `v`
itself, shown at `T = bool`; for a nullable `T` (shown at `T = Option<bool>`)
it falls back to the two-field `{ has_value, value }` struct; and the
deserializer reads back whichever representation the same rule selects,
round-tripping every value of `Option<bool>` and `Option<Option<bool>>`
through the JSON text format. -/
theorem option_null_niche :
    (∀ b : Bool,
      to_str (serializeOption false sPutBool) (some b) = to_str sPutBool b) ∧
    to_str (serializeOption false sPutBool) none = str "null" ∧
    to_str (serializeOption true (serializeOption false sPutBool)) none =
      str "\x7b \"has_value\": false \x7d" ∧
    to_str (serializeOption true (serializeOption false sPutBool)) (some none) =
      str "\x7b \"has_value\": true, \"value\": null \x7d" ∧
    (∀ b : Bool,
      to_str (serializeOption true (serializeOption false sPutBool)) (some (some b)) =
        str "\x7b \"has_value\": true, \"value\": " ++ to_str sPutBool b ++ str " \x7d") ∧
    (∀ o : Option Bool,
      runDecode (deserializeOption false deBool 100) 100
        (to_str (serializeOption false sPutBool) o) = .ok o) ∧
    (∀ o : Option (Option Bool),
      runDecode (deserializeOption true (deserializeOption false deBool 100) 100) 100
        (to_str (serializeOption true (serializeOption false sPutBool)) o) = .ok o) := by
  refine ⟨?_, rfl, rfl, rfl, ?_, ?_, ?_⟩
  · intro b; cases b <;> rfl
  · intro b; cases b <;> rfl
  · intro o
    match o with
    | none => rfl
    | some true => rfl
    | some false => rfl
  · intro o
    match o with
    | none => rfl
    | some none => rfl
    | some (some true) => rfl
    | some (some false) => rfl

end Serdere
